import Mathlib

/-!
Verification development for the product pipeline of `src/routers/products.js`
(shopify-server).  JavaScript values are shallowly embedded as the inductive
type `J`; JavaScript numbers are modelled as exact fractions (`Frac`, an
integer numerator over a positive integer denominator — the prices this
pipeline handles are short decimal strings, for which the IEEE-double
`parseFloat`/`toFixed(2)` round trip is exact, so the exact-decimal model
coincides with the JavaScript behaviour on them); code that can throw a
`TypeError` is modelled in the `Except String` monad.
-/

/-- An exact fraction: the model of a (non-`NaN`) JavaScript number.  All
fractions built by this development have a positive denominator. -/
structure Frac where
  num : Int
  den : Int
deriving DecidableEq

namespace Frac

def ofInt (n : Int) : Frac := ⟨n, 1⟩

/-- `a ≤ b` by cross multiplication (denominators are positive). -/
def ble (a b : Frac) : Bool := decide (a.num * b.den ≤ b.num * a.den)

/-- `Math.max` on two numbers. -/
def fmax (a b : Frac) : Frac := if ble a b then b else a

end Frac

/-- Model of a JavaScript/JSON value.  `undef` is JavaScript `undefined`. -/
inductive J where
  | undef
  | null
  | jbool (b : Bool)
  | num (q : Frac)
  | str (s : String)
  | arr (xs : List J)
  | obj (kv : List (String × J))

namespace J

mutual

def decEqJ : (a b : J) → Decidable (a = b)
  | .undef, .undef => isTrue rfl
  | .null, .null => isTrue rfl
  | .jbool a, .jbool b =>
    match decEq a b with
    | isTrue h => isTrue (by rw [h])
    | isFalse h => isFalse (by intro hh; cases hh; exact h rfl)
  | .num a, .num b =>
    match decEq a b with
    | isTrue h => isTrue (by rw [h])
    | isFalse h => isFalse (by intro hh; cases hh; exact h rfl)
  | .str a, .str b =>
    match decEq a b with
    | isTrue h => isTrue (by rw [h])
    | isFalse h => isFalse (by intro hh; cases hh; exact h rfl)
  | .arr a, .arr b =>
    match decEqListJ a b with
    | isTrue h => isTrue (by rw [h])
    | isFalse h => isFalse (by intro hh; cases hh; exact h rfl)
  | .obj a, .obj b =>
    match decEqKVJ a b with
    | isTrue h => isTrue (by rw [h])
    | isFalse h => isFalse (by intro hh; cases hh; exact h rfl)
  | .undef, .null | .undef, .jbool _ | .undef, .num _ | .undef, .str _
  | .undef, .arr _ | .undef, .obj _ => isFalse (by intro h; cases h)
  | .null, .undef | .null, .jbool _ | .null, .num _ | .null, .str _
  | .null, .arr _ | .null, .obj _ => isFalse (by intro h; cases h)
  | .jbool _, .undef | .jbool _, .null | .jbool _, .num _ | .jbool _, .str _
  | .jbool _, .arr _ | .jbool _, .obj _ => isFalse (by intro h; cases h)
  | .num _, .undef | .num _, .null | .num _, .jbool _ | .num _, .str _
  | .num _, .arr _ | .num _, .obj _ => isFalse (by intro h; cases h)
  | .str _, .undef | .str _, .null | .str _, .jbool _ | .str _, .num _
  | .str _, .arr _ | .str _, .obj _ => isFalse (by intro h; cases h)
  | .arr _, .undef | .arr _, .null | .arr _, .jbool _ | .arr _, .num _
  | .arr _, .str _ | .arr _, .obj _ => isFalse (by intro h; cases h)
  | .obj _, .undef | .obj _, .null | .obj _, .jbool _ | .obj _, .num _
  | .obj _, .str _ | .obj _, .arr _ => isFalse (by intro h; cases h)

def decEqListJ : (a b : List J) → Decidable (a = b)
  | [], [] => isTrue rfl
  | [], _ :: _ => isFalse (by intro h; cases h)
  | _ :: _, [] => isFalse (by intro h; cases h)
  | x :: xs, y :: ys =>
    match decEqJ x y with
    | isFalse h => isFalse (by intro hh; cases hh; exact h rfl)
    | isTrue h =>
      match decEqListJ xs ys with
      | isTrue h2 => isTrue (by rw [h, h2])
      | isFalse h2 => isFalse (by intro hh; cases hh; exact h2 rfl)

def decEqKVJ : (a b : List (String × J)) → Decidable (a = b)
  | [], [] => isTrue rfl
  | [], _ :: _ => isFalse (by intro h; cases h)
  | _ :: _, [] => isFalse (by intro h; cases h)
  | (k, x) :: xs, (k2, y) :: ys =>
    match decEq k k2 with
    | isFalse h => isFalse (by intro hh; cases hh; exact h rfl)
    | isTrue h =>
      match decEqJ x y with
      | isFalse h2 => isFalse (by intro hh; cases hh; exact h2 rfl)
      | isTrue h2 =>
        match decEqKVJ xs ys with
        | isTrue h3 => isTrue (by rw [h, h2, h3])
        | isFalse h3 => isFalse (by intro hh; cases hh; exact h3 rfl)

end

instance : DecidableEq J := decEqJ

/-- JavaScript truthiness: `undefined`, `null`, `false`, `0`, `""` are falsy. -/
def truthy : J → Bool
  | undef => false
  | null => false
  | jbool b => b
  | num q => decide (q.num ≠ 0)
  | str s => decide (s ≠ "")
  | arr _ => true
  | obj _ => true

/-- `typeof v === 'object'` — true for objects, arrays and `null`. -/
def typeofObject : J → Bool
  | null => true
  | arr _ => true
  | obj _ => true
  | _ => false

def isArray : J → Bool
  | arr _ => true
  | _ => false

/-- Property read `v[k]` that never throws: `undefined` for a missing key and
for every non-object receiver (including `null`/`undefined`, whose real
JavaScript read would throw — callers use this only where the receiver is
known not to be `null`/`undefined`, or inside a surrounding `catch`). -/
def jget : J → String → J
  | obj kv, k => (kv.lookup k).getD undef
  | _, _ => undef

/-- Property read `v[k]` with JavaScript throwing behaviour: reading a
property of `null` or `undefined` throws a `TypeError`. -/
def get : J → String → Except String J
  | null, k => .error ("TypeError: cannot read properties of null (reading " ++ k ++ ")")
  | undef, k => .error ("TypeError: cannot read properties of undefined (reading " ++ k ++ ")")
  | v, k => .ok (jget v k)

/-- `a || b`. -/
def jsOr (a b : J) : J := if truthy a then a else b

/-- Receivers on which a property read does not throw. -/
def accessible : J → Bool
  | null => false
  | undef => false
  | _ => true

theorem get_eq_jget {v : J} (h : accessible v = true) (k : String) :
    get v k = .ok (jget v k) := by
  cases v <;> simp [accessible] at h ⊢ <;> rfl

theorem get_eq_jget_of_truthy {v : J} (h : truthy v = true) (k : String) :
    get v k = .ok (jget v k) := by
  cases v <;> first
    | rfl
    | simp [truthy] at h

end J

/-- The whitespace characters recognised by JavaScript's `trim` and
`parseFloat` that occur in this pipeline's data. -/
def jsSpace (c : Char) : Bool :=
  c = ' ' || c = '\t' || c = '\n' || c = '\r' || c = '\x0b' || c = '\x0c'

/-- Remove leading and trailing whitespace from a character list. -/
def trimChars (l : List Char) : List Char :=
  (((l.dropWhile jsSpace).reverse).dropWhile jsSpace).reverse

/-- JavaScript `String.prototype.trim`. -/
def jsTrim (s : String) : String := String.mk (trimChars s.data)

/-- Digit-list to natural number, most significant first. -/
def digitsToNat (l : List Char) : Nat :=
  l.foldl (fun acc c => 10 * acc + (c.toNat - '0'.toNat)) 0

/-- `parseFloat` on a character list: skip leading whitespace, read an
optional sign, a decimal significand and an optional exponent, ignoring any
trailing junk; `none` models `NaN` (no parsable numeric prefix). -/
def parseFloatChars (l0 : List Char) : Option Frac :=
  let l1 := l0.dropWhile jsSpace
  let neg : Bool := l1.head? = some '-'
  let l2 := if l1.head? = some '-' || l1.head? = some '+' then l1.tail else l1
  let intDigits := l2.takeWhile Char.isDigit
  let l3 := l2.drop intDigits.length
  let fracDigits := if l3.head? = some '.' then (l3.tail).takeWhile Char.isDigit else []
  if intDigits = [] ∧ fracDigits = [] then none
  else
    let l4 := if l3.head? = some '.' then (l3.tail).drop fracDigits.length else l3
    let expVal : Int :=
      if l4.head? = some 'e' || l4.head? = some 'E' then
        let l5 := l4.tail
        let eneg : Bool := l5.head? = some '-'
        let l6 := if l5.head? = some '-' || l5.head? = some '+' then l5.tail else l5
        let eDigits := l6.takeWhile Char.isDigit
        if eDigits = [] then 0
        else if eneg then -(digitsToNat eDigits : Int) else (digitsToNat eDigits : Int)
      else 0
    let baseNum : Int :=
      (digitsToNat intDigits : Int) * (10 : Int) ^ fracDigits.length + (digitsToNat fracDigits : Int)
    let baseDen : Int := (10 : Int) ^ fracDigits.length
    let scaledNum := if 0 ≤ expVal then baseNum * (10 : Int) ^ expVal.toNat else baseNum
    let scaledDen := if 0 ≤ expVal then baseDen else baseDen * (10 : Int) ^ (-expVal).toNat
    some ⟨if neg then -scaledNum else scaledNum, scaledDen⟩

def parseFloatStr (s : String) : Option Frac := parseFloatChars s.data

/-- Decimal rendering of a fraction, exact when the denominator divides a
power of ten (the only case this pipeline produces); used for the string
coercion of numbers. -/
def fracDecimalRender (q : Frac) : String :=
  if q.num = 0 then "0"
  else
    let sgn := if q.num < 0 then "-" else ""
    let n := q.num.natAbs
    let d := q.den.natAbs
    let ip : Nat := n / d
    let rem : Nat := n % d
    if rem = 0 then sgn ++ toString ip
    else
      let scaled : Nat := rem * 10 ^ 20 / d
      let digits := Nat.toDigits 10 scaled
      let padded := List.replicate (20 - digits.length) '0' ++ digits
      let trimmed := (padded.reverse.dropWhile (fun c => c = '0')).reverse
      sgn ++ toString ip ++ "." ++ String.mk trimmed

/-- `Array.prototype.toString`: elements joined with `","`, where `null` and
`undefined` elements render as the empty string, nested arrays render by
their own join and objects render as `"[object Object]"`. -/
def J.renderArr (xs : List J) : String :=
  String.intercalate "," (xs.attach.map (fun x =>
    match x with
    | ⟨.undef, _⟩ => ""
    | ⟨.null, _⟩ => ""
    | ⟨.jbool b, _⟩ => cond b "true" "false"
    | ⟨.num q, _⟩ => fracDecimalRender q
    | ⟨.str s, _⟩ => s
    | ⟨.obj _, _⟩ => "[object Object]"
    | ⟨.arr ys, _⟩ => J.renderArr ys))
termination_by sizeOf xs
decreasing_by
  have hm := List.sizeOf_lt_of_mem (by assumption : J.arr ys ∈ xs)
  simp only [J.arr.sizeOf_spec] at hm
  omega

/-- JavaScript string coercion `String(v)`. -/
def J.toJSString : J → String
  | .undef => "undefined"
  | .null => "null"
  | .jbool b => cond b "true" "false"
  | .num q => fracDecimalRender q
  | .str s => s
  | .obj _ => "[object Object]"
  | .arr xs => J.renderArr xs

/-- `parseFloat(v)`: the argument is coerced to a string and parsed;
numbers parse back to themselves. -/
def parseFloatJ : J → Option Frac
  | .num q => some q
  | v => parseFloatStr (J.toJSString v)

/-- `q.toFixed(2)`: two fractional digits, rounding half away from zero
(the exact-decimal model of the JavaScript call);
`⌊q*100 + 1/2⌋ = ⌊(200·num + den) / (2·den)⌋`. -/
def toFixed2 (q : Frac) : String :=
  let c : Int :=
    if 0 ≤ q.num then Int.fdiv (q.num * 200 + q.den) (2 * q.den)
    else -(Int.fdiv ((-q.num) * 200 + q.den) (2 * q.den))
  let s := if c < 0 then "-" else ""
  let a := c.natAbs
  s ++ toString (a / 100) ++ "." ++ (if a % 100 < 10 then "0" else "") ++ toString (a % 100)

example : toFixed2 ⟨0, 1⟩ = "0.00" := by decide
example : toFixed2 ⟨1999, 100⟩ = "19.99" := by decide
example : parseFloatStr "19.99" = some ⟨1999, 100⟩ := by decide
example : parseFloatStr "abc" = none := by decide
example : parseFloatStr "5" = some ⟨5, 1⟩ := by decide
example : jsTrim "  a b  " = "a b" := by decide
example : J.toJSString (J.num ⟨1999, 100⟩) = "19.99" := by decide

/-- `s.startsWith(pre)` (model of `String.prototype.startsWith`). -/
def strStartsWith (s pre : String) : Bool := decide (s.data.take pre.data.length = pre.data)

/-- One pass of `String.prototype.replace` with a global single-character
pattern: every occurrence of `c` is replaced by `repl`. -/
def replaceChar (c : Char) (repl : List Char) : List Char → List Char
  | [] => []
  | x :: xs => (if x = c then repl else [x]) ++ replaceChar c repl xs

/-- The two sequential replacements of the source's `gqlEscape`
(`src/routers/products.js` lines 227-229): first every backslash becomes a
doubled backslash, then every double quote becomes backslash-quote. -/
def gqlEscapeChars (l : List Char) : List Char :=
  replaceChar '"' ['\\', '"'] (replaceChar '\\' ['\\', '\\'] l)

def gqlEscapeStr (s : String) : String := String.mk (gqlEscapeChars s.data)

/-- `gqlEscape(str)`: the argument is coerced with `String(...)` first. -/
def gqlEscape (v : J) : String := gqlEscapeStr (J.toJSString v)

/-- Per-character description of the composed escaping. -/
def escChar (x : Char) : List Char :=
  if x = '\\' then ['\\', '\\'] else if x = '"' then ['\\', '"'] else [x]

/-- Scanner for the characters following an opening double quote of a
quoted string literal: a backslash escapes the next character, an
unescaped double quote closes the literal and must end the input. -/
def scanQuoted : List Char → Bool
  | [] => false
  | c :: rest =>
    if c = '\\' then
      match rest with
      | [] => false
      | _ :: rest2 => scanQuoted rest2
    else if c = '"' then decide (rest = [])
    else scanQuoted rest

/-- `s` is a syntactically valid quoted string literal: an opening quote,
a well-escaped body, and a closing quote ending the string. -/
def validQuotedLiteral (s : String) : Bool :=
  match s.data with
  | [] => false
  | c :: rest => if c = '"' then scanQuoted rest else false

/-- `v.length === 0` for the values this code probes (`length` of a
non-array non-string is `undefined`, and `undefined === 0` is false). -/
def jsLengthIsZero : J → Bool
  | .arr xs => decide (xs = [])
  | .str s => decide (s = "")
  | _ => false

/-- `v.map(...)` receiver check: the element list of an array, a
`TypeError` otherwise. -/
def jsArrayElems : J → Except String (List J)
  | .arr xs => .ok xs
  | .null => .error "TypeError: cannot read properties of null (reading map)"
  | .undef => .error "TypeError: cannot read properties of undefined (reading map)"
  | _ => .error "TypeError: map is not a function"

/-- The filter-and-map body of the source's `formatTags` (lines 239-241):
drop falsy tags and tags that are empty after trimming, trim and escape the
rest; a truthy non-string tag makes `tag.trim()` throw. -/
def cleanTags : List J → Except String (List String)
  | [] => .ok []
  | t :: rest =>
    if J.truthy t = false then cleanTags rest
    else
      match t with
      | .str s =>
        if jsTrim s = "" then cleanTags rest
        else do
          let r ← cleanTags rest
          .ok (gqlEscapeStr (jsTrim s) :: r)
      | _ => .error "TypeError: tag.trim is not a function"

/-- `formatTags` from `src/routers/products.js` (lines 232-246). -/
def formatTags (tags : J) : Except String String := do
  if J.truthy tags = false then return ""
  if jsLengthIsZero tags then return ""
  let tagArray : List J := match tags with | .arr xs => xs | v => [v]
  let cleaned ← cleanTags tagArray
  if cleaned = [] then return ""
  return "tags: [" ++ String.intercalate ", " (cleaned.map (fun t => "\"" ++ t ++ "\"")) ++ "],"

/-- `[...new Set(l)]`: first-occurrence-preserving de-duplication (JS `Set`
iterates in insertion order; `SameValueZero` agrees with structural
equality on the primitive values this pipeline stores in tags). -/
def dedupGo (seen : List J) : List J → List J
  | [] => []
  | t :: rest => if t ∈ seen then dedupGo seen rest else t :: dedupGo (t :: seen) rest

def dedupSet (l : List J) : List J := dedupGo [] l

/-- Own enumerable fields, as seen by object spread `{...v}` (primitives
spread to nothing, arrays and strings to their indexed elements). -/
def spreadFields : J → List (String × J)
  | .obj kv => kv
  | .arr xs => (List.enum xs).map (fun p => (toString p.1, p.2))
  | .str s => (List.enum s.data).map (fun p => (toString p.1, J.str (String.mk [p.2])))
  | _ => []

/-- Assigning field `k` in an object literal after a spread: an existing
key keeps its position and gets the new value, a new key is appended. -/
def setField (kv : List (String × J)) (k : String) (v : J) : List (String × J) :=
  if (kv.lookup k).isSome then kv.map (fun p => if p.1 = k then (k, v) else p)
  else kv ++ [(k, v)]

def setFields (kv : List (String × J)) (updates : List (String × J)) : List (String × J) :=
  updates.foldl (fun acc p => setField acc p.1 p.2) kv


/-- Monadic map for `Except`, left to right, stopping at the first thrown
error (the evaluation order of `Array.prototype.map` over a throwing
callback). -/
def mapME {a b : Type} (f : a -> Except String b) : List a -> Except String (List b)
  | [] => .ok []
  | x :: xs => do
    let y <- f x
    let ys <- mapME f xs
    .ok (y :: ys)

/-- `normalizeProductInput` from `src/routers/products.js` (lines 10-106).
The nested-sample branch builds fresh objects; the flat and default
branches spread the input and override `attributes`/`media`/`tags`. -/
def normalizeProductInput (input : J) : Except String J := do
  let sampleF ← J.get input "sample"
  let nested ←
    if J.truthy sampleF then do
      let sa ← J.get sampleF "sample_attributes"
      pure (J.truthy sa)
    else pure false
  if nested then
    -- new format with nested sample
    let sample := sampleF
    let saJ ← J.get sample "sample_attributes"
    let saList ← jsArrayElems saJ
    let attrPairs ← mapME (fun attr => do
      let nameF ← J.get attr "name"
      let valuesJ ← J.get attr "values"
      let valuesList ← jsArrayElems valuesJ
      let values ← mapME (fun val => do
        let vname ← J.get val "name"
        let vprice ← J.get val "price"
        let vcompare ← J.get val "compare_price"
        let vsku ← J.get val "sku"
        let vimages ← J.get val "images"
        pure (J.obj [("name", vname), ("price", vprice), ("compare_price", vcompare),
                     ("sku", vsku), ("images", vimages)])) valuesList
      pure (nameF, values)) saList
    let attributes := attrPairs.map (fun p => J.obj [("name", p.1), ("values", J.arr p.2)])
    -- media: sample_media entries first, then every attribute value's images
    let smJ ← J.get sample "sample_media"
    let smList ← jsArrayElems (J.jsOr smJ (J.arr []))
    let topMedia ← mapME (fun m => do
      let mm ← J.get m "media"
      let mf ← J.get m "is_featured"
      pure (J.obj [("media", mm), ("is_featured", mf)])) smList
    let valImagesNested ← mapME (fun val => do
      let imgsJ := J.jget val "images"
      let imgs ← jsArrayElems (J.jsOr imgsJ (J.arr []))
      mapME (fun img => do
        let iF ← J.get img "image"
        pure (J.obj [("media", iF)])) imgs) ((attrPairs.map Prod.snd).flatten)
    let media := topMedia ++ valImagesNested.flatten
    -- tags
    let tagsF ← J.get input "tags"
    let tags1 : List J :=
      [J.str "spade-product"] ++
        (if J.truthy tagsF then (match tagsF with | .arr xs => xs | v => [v]) else [])
    let storeF ← J.get input "store"
    let storeTag ←
      if J.truthy storeF then do
        let sn ← J.get storeF "name"
        pure (if J.truthy sn then [sn] else [])
      else pure []
    let manF ← J.get sample "manufacturer"
    let manTag ←
      if J.truthy manF then do
        let fn ← J.get manF "first_name"
        if J.truthy fn then do
          let ln ← J.get manF "last_name"
          pure [J.str (jsTrim (J.toJSString fn ++ " " ++ J.toJSString ln))]
        else pure []
      else pure []
    let nameF ← J.get input "name"
    let nameTag := if J.truthy nameF then [nameF] else []
    let allTags := tags1 ++ storeTag ++ manTag ++ attrPairs.map Prod.fst ++ nameTag
    let idF ← J.get input "id"
    let titleAlt ← J.get sample "title"
    let descF ← J.get input "description"
    let descAlt ← J.get sample "description"
    let stockF ← J.get input "stock"
    let isActiveF ← J.get input "is_active"
    let priceRangeF ← J.get input "price_range"
    pure (J.obj [
      ("id", idF),
      ("title", J.jsOr nameF titleAlt),
      ("description", J.jsOr descF descAlt),
      ("attributes", J.arr attributes),
      ("media", J.arr media),
      ("stock", stockF),
      ("is_active", isActiveF),
      ("price_range", priceRangeF),
      ("tags", J.arr (dedupSet allTags))])
  else
    let attrsF ← J.get input "attributes"
    if J.isArray attrsF then
      -- old format or already normalized input
      let attrsList ← jsArrayElems attrsF
      let newAttrs ← mapME (fun attr => do
        let nameF ← J.get attr "name"
        let valuesF ← J.get attr "values"
        let firstIsObj : Bool :=
          match valuesF with
          | .arr xs => J.typeofObject ((xs.head?).getD J.undef)
          | _ => false
        let newValues ←
          if J.isArray valuesF && firstIsObj then pure valuesF
          else do
            let vl ← jsArrayElems valuesF
            pure (J.arr (vl.map (fun val => J.obj [("name", val)])))
        pure (J.obj [("name", nameF), ("values", newValues)])) attrsList
      let mediaF ← J.get input "media"
      let tagsF ← J.get input "tags"
      pure (J.obj (setFields (spreadFields input)
        [("attributes", J.arr newAttrs),
         ("media", J.jsOr mediaF (J.arr [])),
         ("tags", J.jsOr tagsF (J.arr []))]))
    else
      -- default case
      let mediaF ← J.get input "media"
      let tagsF ← J.get input "tags"
      pure (J.obj (setFields (spreadFields input)
        [("attributes", J.jsOr attrsF (J.arr [])),
         ("media", J.jsOr mediaF (J.arr [])),
         ("tags", J.jsOr tagsF (J.arr []))]))

/-- A derived variant: price string, optional SKU, option labels (raw
values, escaped only at serialization time). -/
structure Variant where
  price : String
  sku : Option String
  options : List J
deriving DecidableEq

structure OptionsAndVariants where
  options : List J
  variants : List Variant
deriving DecidableEq

/-- The `cartesian` helper of `buildOptionsAndVariants`
(`src/routers/products.js` lines 118-138): empty inputs give `[[]]`, empty
member arrays are filtered out, a single remaining array maps to singleton
combinations, and otherwise a reduce with append builds the product. -/
def cartesian (arrays : List (List J)) : List (List J) :=
  if arrays = [] then [[]]
  else
    match arrays.filter (fun a => decide (0 < a.length)) with
    | [] => [[]]
    | [single] => single.map (fun item => [item])
    | validArrays =>
      validArrays.foldl
        (fun acc curr => acc.flatMap (fun accItem => curr.map (fun currItem => accItem ++ [currItem])))
        [[]]

/-- The per-combination variant construction of `buildOptionsAndVariants`
(lines 151-188).  `productPrice` is the value of `product.price`.  The
`Array.isArray(combo)` null-variant guard of the source is vacuous here:
every combination produced by `cartesian` is a list. -/
def mkVariant (productPrice : J) (combo : List J) : Variant :=
  let prices : List Frac := combo.filterMap (fun val =>
    if J.truthy val && J.typeofObject val && J.truthy (J.jget val "price") then
      parseFloatJ (J.jget val "price")
    else
      parseFloatJ (J.jsOr productPrice (J.str "0")))
  let variantPrice : Frac :=
    match prices with
    | [] => ⟨0, 1⟩
    | p :: ps => ps.foldl Frac.fmax p
  let skus : List J := combo.filterMap (fun val =>
    if J.truthy val && J.truthy (J.jget val "sku") then some (J.jget val "sku") else none)
  let sku : Option String :=
    if skus = [] then none else some (String.intercalate "-" (skus.map J.toJSString))
  let optionNames : List J := combo.map (fun val =>
    if J.truthy val && J.typeofObject val && J.truthy (J.jget val "name") then J.jget val "name"
    else J.str "Default")
  { price := toFixed2 variantPrice, sku := sku, options := optionNames }

/-- `buildOptionsAndVariants` from `src/routers/products.js` (lines
109-199).  `product.price` is read once up front: the reads inside the
source's closures are pure property accesses of the same object. -/
def buildOptionsAndVariants (product : J) : Except String OptionsAndVariants := do
  let attrsF ← J.get product "attributes"
  if J.truthy attrsF = false || J.isArray attrsF = false || attrsF = J.arr [] then
    return { options := [], variants := [] }
  let attrs ← jsArrayElems attrsF
  let options ← mapME (fun attr => J.get attr "name") attrs
  let pprice ← J.get product "price"
  let valuesList ← mapME (fun attr => do
    let vF ← J.get attr "values"
    if J.isArray vF = false then
      pure [J.obj [("name", J.str "Default"), ("price", J.jsOr pprice (J.str "0"))]]
    else do
      let vs ← jsArrayElems vF
      pure (vs.filter (fun val => J.truthy val && J.typeofObject val))) attrs
  let combinations := cartesian valuesList
  let variants := combinations.map (mkVariant pprice)
  let variants :=
    if variants = [] then
      [{ price := match parseFloatJ (J.jsOr pprice (J.str "0")) with
           | some q => toFixed2 q
           | none => "NaN",
         sku := none,
         options := options.map (fun _ => J.str "Default") }]
    else variants
  return { options := options, variants := variants }

structure MediaItem where
  mediaContentType : String
  originalSource : String
deriving DecidableEq

/-- `process.env.SPADE_HOST_URL || 'http://localhost:8000/media'`. -/
def base_image_url : String := "http://localhost:8000/media"

/-- `buildMedia` from `src/routers/products.js` (lines 203-224), with the
configured base URL as an explicit parameter. -/
def buildMediaWith (baseUrl : String) (product : J) : Except String (List MediaItem) := do
  let mediaF ← J.get product "media"
  if J.truthy mediaF = false || jsLengthIsZero mediaF then
    return []
  let ms ← jsArrayElems mediaF
  mapME (fun m => do
    let mm ← J.get m "media"
    let mi ← J.get m "image"
    let rawUrl := J.jsOr mm (J.jsOr mi (J.str ""))
    match rawUrl with
    | .str u =>
      let url :=
        if strStartsWith u "http" then u
        else if strStartsWith u "/media/" then baseUrl ++ u
        else baseUrl ++ "/" ++ u
      pure { mediaContentType := "IMAGE", originalSource := url }
    | _ => .error "TypeError: mediaUrl.startsWith is not a function") ms

def buildMedia (product : J) : Except String (List MediaItem) :=
  buildMediaWith base_image_url product

/-- An outbound GraphQL request: URL, query text, access-token header. -/
structure Req where
  url : String
  query : String
  token : Option String
deriving DecidableEq

/-- Scripted outcome of one upstream `axios.post`: a resolved response
(`ok` carries `response.data`), a rejection carrying an HTTP error response
(`error.response` present), or a rejection with no response. -/
inductive UpResp where
  | ok (body : J)
  | httpErr (status : Nat) (data : J)
  | netErr (msg : String)
deriving DecidableEq

structure HttpResp where
  status : Nat
  body : J
deriving DecidableEq

def adminApiUrl (shopKey : String) : String :=
  "https://" ++ shopKey ++ "/admin/api/2024-04/graphql.json"

/-- One variant's fragment of the `productCreate` mutation (lines 274-278). -/
def variantFragment (v : Variant) : String :=
  "\x7b\n          price: \"" ++ v.price ++ "\",\n          " ++
  (match v.sku with
   | some s => if s ≠ "" then "sku: \"" ++ gqlEscapeStr s ++ "\"," else ""
   | none => "") ++
  "\n          options: [" ++
  String.intercalate ", " (v.options.map (fun opt => "\"" ++ gqlEscape opt ++ "\"")) ++
  "]\n        \x7d"

/-- The `productCreate` mutation template (lines 264-304); `tagsPart` is the
already-computed result of `formatTags`. -/
def createMutation (np : J) (options : List J) (variants : List Variant)
    (tagsPart : String) : String :=
  "\nmutation \x7b\n  productCreate(\n    input: \x7b\n      title: \"" ++
  gqlEscape (J.jget np "title") ++ "\",\n      " ++
  (if J.truthy (J.jget np "description") then
    "descriptionHtml: \"" ++ gqlEscape (J.jget np "description") ++ "\"," else "") ++
  "\n      " ++
  (if J.jget np "is_active" ≠ J.undef then
    "status: " ++ (if J.truthy (J.jget np "is_active") then "ACTIVE" else "DRAFT") ++ ","
   else "") ++
  "\n      " ++ tagsPart ++
  "\n      options: [" ++
  String.intercalate ", " (options.map (fun o => "\"" ++ gqlEscape o ++ "\"")) ++
  "],\n      variants: [\n        " ++
  String.intercalate ",\n        " (variants.map variantFragment) ++
  "\n      ]\n    \x7d\n  ) \x7b\n    product \x7b\n      id\n      title\n      status\n      tags\n      variants(first: 100) \x7b\n        edges \x7b\n          node \x7b\n            id\n            title\n            price\n            sku\n          \x7d\n        \x7d\n      \x7d\n    \x7d\n    userErrors \x7b\n      field\n      message\n    \x7d\n  \x7d\n\x7d\n"

/-- The `productCreateMedia` mutation template (lines 326-352). -/
def mediaCreateMutation (productId : J) (media : List MediaItem) : String :=
  "\nmutation \x7b\n  productCreateMedia(\n    productId: \"" ++ J.toJSString productId ++
  "\",\n    media: [\n      " ++
  String.intercalate ",\n      " (media.map (fun m =>
    "\x7b\n        mediaContentType: " ++ m.mediaContentType ++
    ",\n        originalSource: \"" ++ gqlEscapeStr m.originalSource ++ "\"\n      \x7d")) ++
  "\n    ]\n  ) \x7b\n    media \x7b\n      ... on MediaImage \x7b\n        id\n        status\n        image \x7b\n          url\n        \x7d\n      \x7d\n    \x7d\n    mediaUserErrors \x7b\n      field\n      message\n    \x7d\n  \x7d\n\x7d\n      "

/-- `v.length > 0` for the values this code probes. -/
def jsLengthPos : J → Bool
  | .arr xs => decide (0 < xs.length)
  | .str s => decide (s ≠ "")
  | _ => false

/-- The catch branch for an error with no `response` field (thrown
`TypeError` or network failure): `error.message || 'Unknown error'`. -/
def jsCatch (msg : String) : HttpResp :=
  ⟨500, J.obj [("error", J.str (if msg = "" then "Unknown error" else msg))]⟩

/-- The catch branch for an axios rejection carrying `error.response`
(lines 386-390); the reads of `data.errors`/`data.message` use the total
read — a throw here would surface as an unhandled 500 as well. -/
def axiosCatch (status : Nat) (data : J) : HttpResp :=
  ⟨if status = 0 then 500 else status,
   J.obj [("error", data),
          ("message", J.jsOr (J.jget data "errors")
                        (J.jsOr (J.jget data "message") (J.str "Shopify API error")))]⟩

/-- The 200 response body of a successful create (lines 373-382). -/
def successBody (np prodF mediaResponse : J) : J :=
  J.obj [("product", prodF), ("media", mediaResponse),
         ("source_data", J.obj [
            ("original_id", J.jget np "id"),
            ("price_range", J.jget np "price_range"),
            ("stock", J.jget np "stock"),
            ("tags", J.jget np "tags")])]

/-- The `router.post('/create')` handler (lines 248-397).  `tokens` is the
token store (`accessTokens[shop]`), `responses` scripts the outcomes of the
successive upstream calls, and the result pairs the HTTP response with the
log of upstream requests actually sent.  Reads of fields of objects this
function itself constructed or already dereferenced use the total `jget`;
all other property reads use the throwing `get`. -/
def createRoute (tokens : String → Option String) (responses : List UpResp)
    (shop product : J) : HttpResp × List Req :=
  let accessToken := tokens (J.toJSString shop)
  if J.truthy product = false then
    (⟨400, J.obj [("error", J.str "Product JSON is required")]⟩, [])
  else
    match (do
      let np ← normalizeProductInput product
      let ov ← buildOptionsAndVariants np
      let media ← buildMedia np
      let tagsPart ← formatTags (J.jget np "tags")
      pure (np, ov, media, createMutation np ov.options ov.variants tagsPart) :
      Except String (J × OptionsAndVariants × List MediaItem × String)) with
    | .error msg => (jsCatch msg, [])
    | .ok (np, _ov, media, mutation) =>
      let req1 : Req := ⟨adminApiUrl (J.toJSString shop), mutation, accessToken⟩
      match responses.head?.getD (.netErr "socket hang up") with
      | .httpErr st data => (axiosCatch st data, [req1])
      | .netErr m => (jsCatch m, [req1])
      | .ok respBody =>
        match (do
          let d ← J.get respBody "data"
          let pc ← J.get d "productCreate"
          let ue ← J.get pc "userErrors"
          pure (pc, ue) : Except String (J × J)) with
        | .error msg => (jsCatch msg, [req1])
        | .ok (productData, ue) =>
          if J.truthy ue && jsLengthPos ue then
            (⟨400, J.obj [("errors", ue)]⟩, [req1])
          else
            let prodF := J.jget productData "product"
            if decide (0 < media.length) && J.truthy prodF && J.truthy (J.jget prodF "id") then
              let req2 : Req :=
                ⟨adminApiUrl (J.toJSString shop),
                 mediaCreateMutation (J.jget prodF "id") media, accessToken⟩
              let mediaResponse :=
                match (responses.drop 1).head?.getD (.netErr "socket hang up") with
                | .ok mb =>
                  match (do
                    let d ← J.get mb "data"
                    J.get d "productCreateMedia" : Except String J) with
                  | .ok v => v
                  | .error _ => J.null
                | _ => J.null
              (⟨200, successBody np prodF mediaResponse⟩, [req1, req2])
            else
              (⟨200, successBody np prodF J.null⟩, [req1])

/-! ### Generic list machinery -/

theorem mapME_ok_of_forall {a b : Type} (f : a → Except String b) (g : a → b) :
    ∀ (l : List a), (∀ x ∈ l, f x = .ok (g x)) → mapME f l = .ok (l.map g)
  | [], _ => rfl
  | x :: xs, h => by
    have hx := h x (List.mem_cons_self x xs)
    have hxs := mapME_ok_of_forall f g xs (fun y hy => h y (List.mem_cons_of_mem x hy))
    simp [mapME, hx, hxs, bind, Except.bind]

theorem filterMap_ext_mem {a b : Type} (f g : a → Option b) :
    ∀ (l : List a), (∀ x ∈ l, f x = g x) → l.filterMap f = l.filterMap g
  | [], _ => rfl
  | x :: xs, h => by
    have hx := h x (List.mem_cons_self x xs)
    have hxs := filterMap_ext_mem f g xs (fun y hy => h y (List.mem_cons_of_mem x hy))
    simp [List.filterMap_cons, hx, hxs]

/-! ### The cartesian product: code shape versus the standard nested-loop
enumeration -/

/-- The specification-side cartesian product: first list varies slowest,
last list varies fastest (standard nested-loop order). -/
def stdCartesian {a : Type} : List (List a) → List (List a)
  | [] => [[]]
  | l :: rest => l.flatMap (fun x => (stdCartesian rest).map (fun c => x :: c))

theorem cartFold_eq {a : Type} (ls : List (List a)) :
    ∀ (acc : List (List a)),
      ls.foldl (fun acc curr => acc.flatMap (fun accItem => curr.map (fun currItem => accItem ++ [currItem]))) acc
        = acc.flatMap (fun s => (stdCartesian ls).map (fun c => s ++ c)) := by
  induction ls with
  | nil =>
    intro acc
    simp [stdCartesian]
  | cons l ls ih =>
    intro acc
    simp only [List.foldl_cons, ih, stdCartesian]
    simp [List.flatMap_assoc, List.flatMap_map, List.map_flatMap, List.map_map,
      Function.comp_def, List.append_assoc, List.singleton_append]

/-- The source's `cartesian` equals the standard nested-loop cartesian
product of the member arrays that survive the non-emptiness filter. -/
theorem flatMap_pure {a b : Type} (f : a → b) (l : List a) :
    l.flatMap (fun x => [f x]) = l.map f := by
  induction l <;> simp_all

theorem cartesian_eq_std (arrays : List (List J)) :
    cartesian arrays = stdCartesian (arrays.filter (fun l => decide (0 < l.length))) := by
  by_cases hnil : arrays = []
  · subst hnil; rfl
  · simp only [cartesian, hnil, if_false]
    rcases hf : arrays.filter (fun l => decide (0 < l.length)) with _ | ⟨first, rest⟩
    · rw [hf]; rfl
    · rcases hr : rest with _ | ⟨second, rest2⟩
      · subst hr
        rw [hf]
        simp [stdCartesian, flatMap_pure]
      · subst hr
        rw [hf]
        show (first :: second :: rest2).foldl
            (fun acc curr => acc.flatMap fun accItem =>
              List.map (fun currItem => accItem ++ [currItem]) curr) [[]]
          = stdCartesian (first :: second :: rest2)
        rw [cartFold_eq]
        simp

theorem length_stdCartesian {a : Type} (ls : List (List a)) :
    (stdCartesian ls).length = (ls.map List.length).prod := by
  induction ls with
  | nil => rfl
  | cons l ls ih =>
    simp [stdCartesian, List.length_flatMap, Function.comp_def, ih, List.map_const,
      List.sum_replicate, smul_eq_mul, Nat.mul_comm]

theorem length_stdCartesian_pos {a : Type} (ls : List (List a))
    (h : ∀ l ∈ ls, l ≠ []) : 0 < (stdCartesian ls).length := by
  rw [length_stdCartesian]
  induction ls with
  | nil => simp
  | cons l ls ih =>
    simp only [List.map_cons, List.prod_cons]
    have h1 : l ≠ [] := h l (List.mem_cons_self l ls)
    have h2 := ih (fun x hx => h x (List.mem_cons_of_mem l hx))
    have : 0 < l.length := List.length_pos.mpr h1
    exact Nat.mul_pos this h2

theorem stdCartesian_map {a b : Type} (f : a → b) (ls : List (List a)) :
    stdCartesian (ls.map (List.map f)) = (stdCartesian ls).map (List.map f) := by
  induction ls with
  | nil => rfl
  | cons l ls ih =>
    simp [stdCartesian, ih, List.flatMap_map, List.map_flatMap, List.map_map, Function.comp_def]

/-! ### Structured products and their encoding into `J`

Claims about "products with `n` attributes where attribute `i` has `k_i`
values" quantify over these structured values, which encode into the
canonical JSON shape `buildOptionsAndVariants` consumes. -/

/-- A structured option value: name, optional price string, optional SKU. -/
structure SValue where
  name : String
  price : Option String
  sku : Option String
deriving DecidableEq

/-- A structured attribute: option name and its values. -/
structure SAttr where
  name : String
  values : List SValue
deriving DecidableEq

def encodeValue (v : SValue) : J :=
  J.obj ([("name", J.str v.name)] ++
    (match v.price with | some p => [("price", J.str p)] | none => []) ++
    (match v.sku with | some s => [("sku", J.str s)] | none => []))

def encodeAttr (a : SAttr) : J :=
  J.obj [("name", J.str a.name), ("values", J.arr (a.values.map encodeValue))]

/-- A product as `buildOptionsAndVariants` consumes it: an `attributes`
array and an optional product-level `price`. -/
def encodeProduct (attrs : List SAttr) (pp : Option String) : J :=
  J.obj (("attributes", J.arr (attrs.map encodeAttr)) ::
    (match pp with | some p => [("price", J.str p)] | none => []))

def encodePrice : Option String → J
  | some p => J.str p
  | none => J.undef

/-! ### Specification-side per-combination resolution (§4.2 of the spec,
amended to the source's behaviour) -/

/-- `product.price || '0'` at the string level. -/
def effectiveProductPrice : Option String → String
  | some p => if p = "" then "0" else p
  | none => "0"

/-- The price contributed by one selected value: a present, non-empty
price string parses on its own (an unparseable one contributes nothing);
a missing or empty one falls back to the product-level price string. -/
def specEntryPrice (pp : Option String) (v : SValue) : Option Frac :=
  match v.price with
  | some p => if p ≠ "" then parseFloatStr p else parseFloatStr (effectiveProductPrice pp)
  | none => parseFloatStr (effectiveProductPrice pp)

/-- Maximum of the parsed prices, `0` when none parsed. -/
def specMaxPrice : List Frac → Frac
  | [] => ⟨0, 1⟩
  | p :: ps => ps.foldl Frac.fmax p

def specVariantPrice (pp : Option String) (combo : List SValue) : String :=
  toFixed2 (specMaxPrice (combo.filterMap (specEntryPrice pp)))

def specVariantSku (combo : List SValue) : Option String :=
  let skus := combo.filterMap (fun v =>
    match v.sku with
    | some s => if s ≠ "" then some s else none
    | none => none)
  if skus = [] then none else some (String.intercalate "-" skus)

def specVariantOptions (combo : List SValue) : List J :=
  combo.map (fun v => if v.name ≠ "" then J.str v.name else J.str "Default")

def specVariant (pp : Option String) (combo : List SValue) : Variant :=
  ⟨specVariantPrice pp combo, specVariantSku combo, specVariantOptions combo⟩

theorem jget_encodeValue_name (v : SValue) :
    J.jget (encodeValue v) "name" = J.str v.name := by
  rcases v with ⟨n, p, s⟩; cases p <;> cases s <;> rfl

theorem jget_encodeValue_price (v : SValue) :
    J.jget (encodeValue v) "price"
      = (match v.price with | some p => J.str p | none => J.undef) := by
  rcases v with ⟨n, p, s⟩; cases p <;> cases s <;> rfl

theorem jget_encodeValue_sku (v : SValue) :
    J.jget (encodeValue v) "sku"
      = (match v.sku with | some s => J.str s | none => J.undef) := by
  rcases v with ⟨n, p, s⟩; cases p <;> cases s <;> rfl

theorem truthy_encodeValue (v : SValue) : J.truthy (encodeValue v) = true := rfl

theorem typeofObject_encodeValue (v : SValue) : J.typeofObject (encodeValue v) = true := rfl

theorem jget_encodeProduct_price (attrs : List SAttr) (pp : Option String) :
    J.jget (encodeProduct attrs pp) "price" = encodePrice pp := by
  cases pp <;> rfl

theorem parseFloatJ_fallback (pp : Option String) :
    parseFloatJ (J.jsOr (encodePrice pp) (J.str "0"))
      = parseFloatStr (effectiveProductPrice pp) := by
  cases pp with
  | none => rfl
  | some p =>
    by_cases hp : p = "" <;>
      simp [encodePrice, J.jsOr, J.truthy, effectiveProductPrice, hp, parseFloatJ, J.toJSString]

theorem mkVariant_encode (pp : Option String) (combo : List SValue) :
    mkVariant (encodePrice pp) (combo.map encodeValue) = specVariant pp combo := by
  have hprices : List.filterMap (fun val =>
        if J.truthy val && J.typeofObject val && J.truthy (J.jget val "price") then
          parseFloatJ (J.jget val "price")
        else parseFloatJ (J.jsOr (encodePrice pp) (J.str "0"))) (combo.map encodeValue)
      = combo.filterMap (specEntryPrice pp) := by
    rw [List.filterMap_map]
    apply filterMap_ext_mem
    intro v _
    simp only [Function.comp_apply, truthy_encodeValue, typeofObject_encodeValue,
      jget_encodeValue_price, Bool.true_and]
    rcases v with ⟨n, vp, vs⟩
    cases vp with
    | none => simp [specEntryPrice, J.truthy, parseFloatJ_fallback]
    | some p =>
      by_cases hp : p = ""
      · simp [specEntryPrice, J.truthy, hp, parseFloatJ_fallback]
      · simp [specEntryPrice, J.truthy, hp, parseFloatJ, J.toJSString]
  have hskus : List.filterMap (fun val =>
        if J.truthy val && J.truthy (J.jget val "sku") then some (J.jget val "sku") else none)
        (combo.map encodeValue)
      = (combo.filterMap (fun v => match v.sku with
          | some s => if s ≠ "" then some s else none
          | none => none)).map J.str := by
    rw [List.filterMap_map, List.map_filterMap]
    apply filterMap_ext_mem
    intro v _
    simp only [Function.comp_apply, truthy_encodeValue, jget_encodeValue_sku, Bool.true_and]
    rcases v with ⟨n, vp, vs⟩
    cases vs with
    | none => simp [J.truthy]
    | some s =>
      by_cases hs : s = "" <;> simp [J.truthy, hs]
  have hoptions : List.map (fun val =>
        if J.truthy val && J.typeofObject val && J.truthy (J.jget val "name") then J.jget val "name"
        else J.str "Default") (combo.map encodeValue)
      = specVariantOptions combo := by
    rw [List.map_map]
    apply List.map_congr_left
    intro v _
    simp only [Function.comp_apply, truthy_encodeValue, typeofObject_encodeValue,
      jget_encodeValue_name, Bool.true_and, specVariantOptions]
    by_cases hn : v.name = "" <;> simp [J.truthy, hn]
  simp only [mkVariant, hprices, hskus, hoptions, specVariant, specVariantPrice, specMaxPrice,
    specVariantSku, specVariantOptions]
  simp [List.map_map, Function.comp_def, List.map_eq_nil_iff, J.toJSString]

theorem mapME_map_ok {a b c : Type} (enc : a → b) (f : b → Except String c) (g : a → c) :
    ∀ (l : List a), (∀ x ∈ l, f (enc x) = .ok (g x)) → mapME f (l.map enc) = .ok (l.map g)
  | [], _ => rfl
  | x :: xs, h => by
    have hx := h x (List.mem_cons_self x xs)
    have hxs := mapME_map_ok enc f g xs (fun y hy => h y (List.mem_cons_of_mem x hy))
    simp [mapME, hx, hxs, bind, Except.bind]

theorem filter_encodeValue_self (vs : List SValue) :
    (vs.map encodeValue).filter (fun val => J.truthy val && J.typeofObject val)
      = vs.map encodeValue := by
  apply List.filter_eq_self.mpr
  intro x hx
  rcases List.mem_map.mp hx with ⟨v, _, rfl⟩
  rfl

/-- Master refinement: on an encoded product with at least one attribute,
`buildOptionsAndVariants` returns the attribute names as options and one
`specVariant` per combination of the standard cartesian product of the
non-empty value lists. -/
theorem buildOV_encode (attrs : List SAttr) (pp : Option String) (hne : attrs ≠ []) :
    buildOptionsAndVariants (encodeProduct attrs pp) =
      .ok ⟨attrs.map (fun a => J.str a.name),
           (stdCartesian ((attrs.map SAttr.values).filter (fun l => decide (0 < l.length)))).map
             (specVariant pp)⟩ := by
  have hattr : J.get (encodeProduct attrs pp) "attributes"
      = .ok (J.arr (attrs.map encodeAttr)) := by cases pp <;> rfl
  have hprice : J.get (encodeProduct attrs pp) "price" = .ok (encodePrice pp) := by
    cases pp <;> rfl
  have hmapnil : (attrs.map encodeAttr) ≠ [] := by
    simpa [List.map_eq_nil_iff] using hne
  have hopts : mapME (fun attr => J.get attr "name") (attrs.map encodeAttr)
      = .ok (attrs.map (fun a => J.str a.name)) := by
    apply mapME_map_ok
    intro a _
    rfl
  have hvals : mapME (fun attr => do
        let vF ← J.get attr "values"
        if J.isArray vF = false then
          pure [J.obj [("name", J.str "Default"), ("price", J.jsOr (encodePrice pp) (J.str "0"))]]
        else do
          let vs ← jsArrayElems vF
          pure (vs.filter (fun val => J.truthy val && J.typeofObject val))) (attrs.map encodeAttr)
      = .ok (attrs.map (fun a => a.values.map encodeValue)) := by
    apply mapME_map_ok
    intro a _
    have hlv : (List.lookup "values"
        [("name", J.str a.name), ("values", J.arr (List.map encodeValue a.values))]).getD J.undef
        = J.arr (List.map encodeValue a.values) := rfl
    simp [encodeAttr, J.get, J.jget, hlv, J.isArray, jsArrayElems, bind, Except.bind,
      filter_encodeValue_self, pure, Except.pure]
  have hcart : cartesian (attrs.map (fun a => a.values.map encodeValue))
      = (stdCartesian ((attrs.map SAttr.values).filter (fun l => decide (0 < l.length)))).map
          (List.map encodeValue) := by
    rw [cartesian_eq_std]
    have : (attrs.map (fun a => a.values.map encodeValue)).filter (fun l => decide (0 < l.length))
        = ((attrs.map SAttr.values).filter (fun l => decide (0 < l.length))).map
            (List.map encodeValue) := by
      rw [show (attrs.map (fun a => a.values.map encodeValue))
            = (attrs.map SAttr.values).map (List.map encodeValue) by rw [List.map_map]; rfl]
      rw [List.filter_map]
      simp [Function.comp_def]
    rw [this, stdCartesian_map]
  have hvariants :
      ((stdCartesian ((attrs.map SAttr.values).filter (fun l => decide (0 < l.length)))).map
          (List.map encodeValue)).map (mkVariant (encodePrice pp))
      = (stdCartesian ((attrs.map SAttr.values).filter (fun l => decide (0 < l.length)))).map
          (specVariant pp) := by
    rw [List.map_map]
    apply List.map_congr_left
    intro combo _
    exact mkVariant_encode pp combo
  have hnonempty :
      stdCartesian ((attrs.map SAttr.values).filter (fun l => decide (0 < l.length))) ≠ [] := by
    have hp := length_stdCartesian_pos
      ((attrs.map SAttr.values).filter (fun l => decide (0 < l.length)))
      (fun l hl => by
        have := (List.mem_filter.mp hl).2
        simp at this
        exact List.length_pos.mp this)
    intro hcontra
    rw [hcontra] at hp
    simp at hp
  have htr : J.truthy (J.arr (attrs.map encodeAttr)) = true := rfl
  have hia : J.isArray (J.arr (attrs.map encodeAttr)) = true := rfl
  have hne3 : ¬ (J.arr (attrs.map encodeAttr) = J.arr []) := by simp [hmapnil]
  simp only [buildOptionsAndVariants, hattr, bind, Except.bind, htr, hia, hne3]
  have hcondF : (decide (true = false) || decide (true = false) || decide False) = false := rfl
  have hjsae : jsArrayElems (J.arr (List.map encodeAttr attrs))
      = Except.ok (List.map encodeAttr attrs) := rfl
  simp only [bind, Except.bind] at hvals
  simp only [hcondF, hjsae, hopts, hprice, hvals]
  simp [pure, Except.pure, hcart, hvariants, hnonempty]

theorem mem_of_mem_stdCartesian {a : Type} (ls : List (List a)) :
    ∀ (combo : List a), combo ∈ stdCartesian ls → ∀ x ∈ combo, ∃ l ∈ ls, x ∈ l := by
  induction ls with
  | nil =>
    intro combo hc x hx
    simp [stdCartesian] at hc
    subst hc
    simp at hx
  | cons l ls ih =>
    intro combo hc x hx
    simp only [stdCartesian, List.mem_flatMap, List.mem_map] at hc
    obtain ⟨y, hy, c, hcmem, rfl⟩ := hc
    rcases List.mem_cons.mp hx with rfl | hx2
    · exact ⟨l, List.mem_cons_self l ls, hy⟩
    · obtain ⟨l2, hl2, hxl2⟩ := ih c hcmem x hx2
      exact ⟨l2, List.mem_cons_of_mem l hl2, hxl2⟩

/-- C1 counterexample: a product with zero attributes.  The claim predicts
exactly one default variant; `buildOptionsAndVariants` returns an empty
variant list (the `options: []`/`variants: []` early return of lines
111-113), so the serialized mutation carries no variants at all. -/
theorem C1_zero_attrs_counterexample :
    buildOptionsAndVariants (encodeProduct [] (some "5"))
      = .ok ⟨[], []⟩ ∧
    (⟨[], []⟩ : OptionsAndVariants) ≠ ⟨[], [⟨"5.00", none, []⟩]⟩ := by
  exact ⟨rfl, by decide⟩

/-- C1 (amended): for `n ≥ 1` attributes, `expand` yields
`∏ k_i` variants over the attributes whose (object-filtered) value lists
are non-empty — `∏ k_i` over all attributes when every `k_i ≥ 1`, and a
product over the surviving attributes otherwise (an empty product gives a
single variant).  When `n = 0` it yields zero variants, not a default one.
When every value list is empty, the single variant carries price `"0.00"`
(not the product-level price) and an empty option-label list (not a list
of `"Default"` labels matching the attribute count). -/
theorem C1_expand_count (attrs : List SAttr) (pp : Option String) :
    (attrs = [] →
      buildOptionsAndVariants (encodeProduct attrs pp) = .ok ⟨[], []⟩) ∧
    (attrs ≠ [] →
      ∃ r, buildOptionsAndVariants (encodeProduct attrs pp) = .ok r ∧
        r.options = attrs.map (fun a => J.str a.name) ∧
        r.variants.length
          = (((attrs.map SAttr.values).filter (fun l => decide (0 < l.length))).map
              List.length).prod) ∧
    (attrs ≠ [] → (∀ a ∈ attrs, a.values = []) →
      buildOptionsAndVariants (encodeProduct attrs pp)
        = .ok ⟨attrs.map (fun a => J.str a.name), [⟨"0.00", none, []⟩]⟩) := by
  refine ⟨?_, ?_, ?_⟩
  · rintro rfl
    cases pp <;> rfl
  · intro hne
    refine ⟨_, buildOV_encode attrs pp hne, rfl, ?_⟩
    simp [length_stdCartesian]
  · intro hne hempty
    rw [buildOV_encode attrs pp hne]
    have hfilter : (attrs.map SAttr.values).filter (fun l => decide (0 < l.length)) = [] := by
      rw [List.filter_eq_nil_iff]
      intro x hx
      rcases List.mem_map.mp hx with ⟨a, ha, rfl⟩
      simp [hempty a ha]
    rw [hfilter]
    have hsv : specVariant pp [] = ⟨"0.00", none, []⟩ := by
      simp only [specVariant, specVariantPrice, specVariantSku, specVariantOptions,
        List.filterMap_nil, specMaxPrice, List.map_nil]
      decide
    simp [stdCartesian, hsv]

def c1Attrs : List SAttr :=
  [⟨"Color", [⟨"Red", none, none⟩, ⟨"Yellow", none, none⟩]⟩,
   ⟨"Size", [⟨"S", none, none⟩, ⟨"M", none, none⟩, ⟨"L", none, none⟩]⟩]

/-- Witness for `C1_expand_count`: 2 × 3 values give 6 variants. -/
theorem C1_expand_count_witness :
    ∃ r, buildOptionsAndVariants (encodeProduct c1Attrs none) = .ok r ∧
      r.variants.length = 6 := by
  obtain ⟨-, h2, -⟩ := C1_expand_count c1Attrs none
  obtain ⟨r, hr, -, hlen⟩ := h2 (by decide)
  exact ⟨r, hr, by rw [hlen]; decide⟩

/-- C2 counterexample: a product with zero attributes vacuously satisfies
"all value lists non-empty", but the code enumerates no combination at
all, while the standard cartesian product of zero lists is the single
empty combination. -/
theorem C2_zero_attrs_counterexample :
    (∃ r, buildOptionsAndVariants (encodeProduct [] none) = .ok r ∧
      r.variants.map Variant.options = []) ∧
    stdCartesian (([] : List SAttr).map (fun a => a.values.map (fun v => J.str v.name)))
      = [[]] ∧
    ([] : List (List J)) ≠ [[]] := by
  exact ⟨⟨⟨[], []⟩, rfl, rfl⟩, rfl, by decide⟩

/-- C2 (amended): for a product with at least one attribute, all of whose
value lists are non-empty (with truthy value names), the variant
combinations appear exactly in standard nested-loop cartesian order: the
first attribute varies slowest, the last fastest. -/
theorem C2_cartesian_order (attrs : List SAttr) (pp : Option String)
    (hne : attrs ≠ [])
    (hvals : ∀ a ∈ attrs, a.values ≠ [])
    (hnames : ∀ a ∈ attrs, ∀ v ∈ a.values, v.name ≠ "") :
    ∃ r, buildOptionsAndVariants (encodeProduct attrs pp) = .ok r ∧
      r.variants.map Variant.options
        = stdCartesian (attrs.map (fun a => a.values.map (fun v => J.str v.name))) := by
  refine ⟨_, buildOV_encode attrs pp hne, ?_⟩
  have hfilter : (attrs.map SAttr.values).filter (fun l => decide (0 < l.length))
      = attrs.map SAttr.values := by
    apply List.filter_eq_self.mpr
    intro x hx
    rcases List.mem_map.mp hx with ⟨a, ha, rfl⟩
    simpa [List.length_pos] using hvals a ha
  rw [hfilter, List.map_map]
  have hr : attrs.map (fun a => a.values.map (fun v => J.str v.name))
      = (attrs.map SAttr.values).map (List.map (fun v => J.str v.name)) := by
    rw [List.map_map]; rfl
  rw [hr, stdCartesian_map]
  apply List.map_congr_left
  intro combo hcombo
  have hmem := mem_of_mem_stdCartesian (attrs.map SAttr.values) combo hcombo
  simp only [Function.comp_apply, specVariant, specVariantOptions]
  apply List.map_congr_left
  intro v hv
  obtain ⟨l, hl, hvl⟩ := hmem v hv
  rcases List.mem_map.mp hl with ⟨a, ha, rfl⟩
  simp [hnames a ha v hvl]

def c2Attrs : List SAttr :=
  [⟨"Color", [⟨"Red", none, none⟩, ⟨"Yellow", none, none⟩]⟩,
   ⟨"Size", [⟨"M", none, none⟩, ⟨"L", none, none⟩]⟩]

/-- Witness for `C2_cartesian_order`: `Color:[Red,Yellow]`, `Size:[M,L]`
give the four variants `[Red,M],[Red,L],[Yellow,M],[Yellow,L]` in order. -/
theorem C2_cartesian_order_witness :
    ∃ r, buildOptionsAndVariants (encodeProduct c2Attrs none) = .ok r ∧
      r.variants.map Variant.options
        = [[J.str "Red", J.str "M"], [J.str "Red", J.str "L"],
           [J.str "Yellow", J.str "M"], [J.str "Yellow", J.str "L"]] := by
  obtain ⟨r, hr, hmap⟩ :=
    C2_cartesian_order c2Attrs none (by decide) (by decide) (by decide)
  exact ⟨r, hr, by rw [hmap]; rfl⟩

/-- C3 counterexample: one value whose present price `"abc"` is
unparseable, product-level price `"5"`.  The claim predicts the fallback
to the product price (`"5.00"`); the code drops the unparseable entry from
the maximum entirely, leaving no parsed prices, hence `"0.00"`. -/
theorem C3_unparseable_counterexample :
    buildOptionsAndVariants
        (encodeProduct [⟨"Color", [⟨"A", some "abc", none⟩]⟩] (some "5"))
      = .ok ⟨[J.str "Color"], [⟨"0.00", none, [J.str "A"]⟩]⟩ ∧
    ("0.00" : String) ≠ "5.00" := by
  exact ⟨rfl, by decide⟩

/-- C3 (amended): each variant's price is the maximum over the parseable
entries of the combination, where a value with a present (truthy) price
contributes its own parse — and is dropped, with no fallback, when that
parse fails — while a value with a missing or empty price contributes the
parse of the product-level price (`'0'` when absent); if nothing parses
the price is `0`; the result is formatted with exactly two fractional
digits. -/
theorem C3_variant_price (attrs : List SAttr) (pp : Option String) (hne : attrs ≠ []) :
    ∃ r, buildOptionsAndVariants (encodeProduct attrs pp) = .ok r ∧
      r.variants.map Variant.price
        = (stdCartesian ((attrs.map SAttr.values).filter (fun l => decide (0 < l.length)))).map
            (fun combo => toFixed2 (specMaxPrice (combo.filterMap (specEntryPrice pp)))) := by
  refine ⟨_, buildOV_encode attrs pp hne, ?_⟩
  rw [List.map_map]
  rfl

/-- Witness for `C3_variant_price`: values `Red@19.99` and `Yellow@21.99`
on one attribute give two variants priced `"19.99"` and `"21.99"`, in that
order. -/
theorem C3_variant_price_witness :
    ∃ r, buildOptionsAndVariants
        (encodeProduct [⟨"Color", [⟨"Red", some "19.99", none⟩,
                                   ⟨"Yellow", some "21.99", none⟩]⟩] none) = .ok r ∧
      r.variants.map Variant.price = ["19.99", "21.99"] := by
  obtain ⟨r, hr, hp⟩ := C3_variant_price
    [⟨"Color", [⟨"Red", some "19.99", none⟩, ⟨"Yellow", some "21.99", none⟩]⟩] none (by decide)
  exact ⟨r, hr, by rw [hp]; rfl⟩

/-! ### C4: escaping -/

theorem replaceChar_append (c : Char) (repl : List Char) (a b : List Char) :
    replaceChar c repl (a ++ b) = replaceChar c repl a ++ replaceChar c repl b := by
  induction a <;> simp_all [replaceChar, List.append_assoc]

theorem gqlEscapeChars_cons (x : Char) (xs : List Char) :
    gqlEscapeChars (x :: xs) = escChar x ++ gqlEscapeChars xs := by
  simp only [gqlEscapeChars, replaceChar]
  rw [replaceChar_append]
  congr 1
  by_cases h1 : x = '\\'
  · subst h1; rfl
  · by_cases h2 : x = '"'
    · subst h2; simp [escChar, replaceChar]
    · simp [escChar, replaceChar, h1, h2]

theorem gqlEscapeChars_eq_flatMap (l : List Char) :
    gqlEscapeChars l = l.flatMap escChar := by
  induction l with
  | nil => rfl
  | cons x xs ih => rw [gqlEscapeChars_cons, ih, List.flatMap_cons]

theorem scanQuoted_escChar (x : Char) (rest : List Char) :
    scanQuoted (escChar x ++ rest) = scanQuoted rest := by
  by_cases h1 : x = '\\'
  · subst h1; rfl
  · by_cases h2 : x = '"'
    · subst h2; rfl
    · have he : escChar x = [x] := by simp [escChar, h1, h2]
      rw [he, List.singleton_append]
      conv_lhs => rw [scanQuoted.eq_def]
      simp [h1, h2]

theorem scanQuoted_esc_append (l rest : List Char) :
    scanQuoted (gqlEscapeChars l ++ rest) = scanQuoted rest := by
  induction l with
  | nil => rfl
  | cons x xs ih =>
    rw [gqlEscapeChars_cons, List.append_assoc, scanQuoted_escChar, ih]

/-- C4: `gqlEscape` first doubles every backslash and then replaces every
double quote by backslash-quote — the composed effect is the per-character
map `escChar` — and for every input string the escaped result, interpolated
between double quotes, is a syntactically valid quoted string literal. -/
theorem C4_gqlEscape_valid (s : String) :
    gqlEscape (J.str s) = gqlEscapeStr s ∧
    gqlEscapeStr s = String.mk (s.data.flatMap escChar) ∧
    validQuotedLiteral ("\"" ++ gqlEscapeStr s ++ "\"") = true := by
  refine ⟨rfl, ?_, ?_⟩
  · simp [gqlEscapeStr, gqlEscapeChars_eq_flatMap]
  · have hdata : ("\"" ++ gqlEscapeStr s ++ "\"").data
        = '"' :: (gqlEscapeChars s.data ++ ['"']) := by
      rw [String.data_append, String.data_append]
      rfl
    simp only [validQuotedLiteral, hdata, if_pos]
    rw [scanQuoted_esc_append]
    rfl

/-! ### C5: tags -/

theorem dropWhile_head_not (p : Char → Bool) :
    ∀ (l : List Char) (c : Char) (t : List Char), l.dropWhile p = c :: t → p c = false
  | [], c, t, h => by simp [List.dropWhile] at h
  | x :: xs, c, t, h => by
    rw [List.dropWhile_cons] at h
    by_cases hx : p x = true
    · simp [hx] at h
      exact dropWhile_head_not p xs c t h
    · simp [hx] at h
      obtain ⟨rfl, -⟩ := h
      simpa using hx

theorem mem_dropWhile_of_not (p : Char → Bool) (l : List Char) (c : Char)
    (hc : c ∈ l) (hp : p c = false) : c ∈ l.dropWhile p := by
  have hsplit : c ∈ l.takeWhile p ++ l.dropWhile p := by
    rw [List.takeWhile_append_dropWhile]; exact hc
  rcases List.mem_append.mp hsplit with h | h
  · have := List.mem_takeWhile_imp h
    rw [hp] at this
    cases this
  · exact h

theorem trimChars_ne_nil (l : List Char) (c : Char) (hc : c ∈ l) (hp : jsSpace c = false) :
    trimChars l ≠ [] := by
  intro hcontra
  unfold trimChars at hcontra
  rw [List.reverse_eq_nil_iff, List.dropWhile_eq_nil_iff] at hcontra
  have hc1 : c ∈ l.dropWhile jsSpace := mem_dropWhile_of_not jsSpace l c hc hp
  have hc2 : c ∈ (l.dropWhile jsSpace).reverse := List.mem_reverse.mpr hc1
  have := hcontra c hc2
  rw [hp] at this
  cases this

theorem exists_nonspace_of_trimChars_ne_nil (l : List Char) (h : trimChars l ≠ []) :
    ∃ c ∈ trimChars l, jsSpace c = false := by
  unfold trimChars at *
  rcases hd : ((l.dropWhile jsSpace).reverse).dropWhile jsSpace with _ | ⟨c, t⟩
  · rw [hd] at h; simp at h
  · have hc := dropWhile_head_not jsSpace _ _ _ hd
    refine ⟨c, ?_, hc⟩
    exact List.mem_reverse.mpr (List.mem_cons_self c t)

theorem escChar_ne_nil (x : Char) : escChar x ≠ [] := by
  unfold escChar
  by_cases h1 : x = '\\' <;> by_cases h2 : x = '"' <;> simp [h1, h2]

theorem gqlEscapeChars_ne_nil (l : List Char) (h : l ≠ []) : gqlEscapeChars l ≠ [] := by
  rcases l with _ | ⟨x, xs⟩
  · cases h rfl
  · rw [gqlEscapeChars_cons]
    intro hc
    rcases List.append_eq_nil.mp hc with ⟨h1, -⟩
    exact escChar_ne_nil x h1

theorem gqlEscapeChars_has_nonspace (l : List Char) (c : Char)
    (hc : c ∈ l) (hs : jsSpace c = false) :
    ∃ d ∈ gqlEscapeChars l, jsSpace d = false := by
  rw [gqlEscapeChars_eq_flatMap]
  by_cases h1 : c = '\\'
  · exact ⟨'\\', List.mem_flatMap.mpr ⟨c, hc, by simp [escChar, h1]⟩, by decide⟩
  · by_cases h2 : c = '"'
    · exact ⟨'"', List.mem_flatMap.mpr ⟨c, hc, by simp [escChar, h1, h2]⟩, by decide⟩
    · exact ⟨c, List.mem_flatMap.mpr ⟨c, hc, by simp [escChar, h1, h2]⟩, hs⟩

theorem mk_ne_empty_iff (l : List Char) : (String.mk l ≠ "") ↔ l ≠ [] := by
  constructor
  · intro h hc; subst hc; exact h rfl
  · intro h hc
    have : l = [] := by
      have := congrArg String.data hc
      simpa using this
    exact h this

/-- Every entry produced by the source's tag cleaning is non-empty and not
whitespace-only. -/
theorem cleanTags_entries :
    ∀ (tags : List J) (out : List String), cleanTags tags = .ok out →
      ∀ s ∈ out, s ≠ "" ∧ jsTrim s ≠ ""
  | [], out, hout => by
    intro s hs
    cases hout
    cases hs
  | t :: rest, out, hout => by
    intro s hs
    unfold cleanTags at hout
    by_cases ht : J.truthy t = true
    · rw [if_neg (by simp [ht])] at hout
      rcases t with _|_|b|q|ts|xs|kv
      · simp [J.truthy] at ht
      · simp [J.truthy] at ht
      · cases hout
      · cases hout
      · -- t = J.str ts
        dsimp only at hout
        by_cases htr : jsTrim ts = ""
        · rw [if_pos htr] at hout
          exact cleanTags_entries rest out hout s hs
        · rw [if_neg htr] at hout
          rcases hrest : cleanTags rest with e | r <;> rw [hrest] at hout <;>
            simp [bind, Except.bind] at hout
          subst hout
          rcases List.mem_cons.mp hs with rfl | hs2
          · -- s = gqlEscapeStr (jsTrim ts)
            have hne : trimChars ts.data ≠ [] := by
              intro hcontra
              exact htr (by simp [jsTrim, hcontra])
            constructor
            · rw [gqlEscapeStr, mk_ne_empty_iff]
              exact gqlEscapeChars_ne_nil _ hne
            · obtain ⟨c, hcmem, hcns⟩ := exists_nonspace_of_trimChars_ne_nil _ hne
              obtain ⟨d, hdmem, hdns⟩ := gqlEscapeChars_has_nonspace (trimChars ts.data) c hcmem hcns
              rw [jsTrim, mk_ne_empty_iff]
              exact trimChars_ne_nil _ d (by simpa [gqlEscapeStr, jsTrim] using hdmem) hdns
          · exact cleanTags_entries rest r hrest s hs2
      · cases hout
      · cases hout
    · simp only [Bool.not_eq_true] at ht
      rw [if_pos (by simp [ht])] at hout
      exact cleanTags_entries rest out hout s hs

theorem dedupGo_sublist : ∀ (l seen : List J), (dedupGo seen l).Sublist l
  | [], _ => List.Sublist.refl []
  | t :: rest, seen => by
    unfold dedupGo
    by_cases h : t ∈ seen
    · rw [if_pos h]
      exact (dedupGo_sublist rest seen).cons t
    · rw [if_neg h]
      exact (dedupGo_sublist rest (t :: seen)).cons₂ t

theorem mem_dedupGo : ∀ (l seen : List J) (x : J), x ∈ dedupGo seen l ↔ x ∈ l ∧ x ∉ seen
  | [], seen, x => by simp [dedupGo]
  | t :: rest, seen, x => by
    unfold dedupGo
    by_cases h : t ∈ seen
    · rw [if_pos h, mem_dedupGo rest seen x]
      constructor
      · rintro ⟨h1, h2⟩
        exact ⟨List.mem_cons_of_mem t h1, h2⟩
      · rintro ⟨h1, h2⟩
        rcases List.mem_cons.mp h1 with rfl | h3
        · exact absurd h h2
        · exact ⟨h3, h2⟩
    · rw [if_neg h]
      constructor
      · intro hx
        rcases List.mem_cons.mp hx with rfl | h3
        · exact ⟨List.mem_cons_self x rest, h⟩
        · obtain ⟨h4, h5⟩ := (mem_dedupGo rest (t :: seen) x).mp h3
          refine ⟨List.mem_cons_of_mem t h4, fun hs => h5 (List.mem_cons_of_mem t hs)⟩
      · rintro ⟨h1, h2⟩
        rcases List.mem_cons.mp h1 with rfl | h3
        · exact List.mem_cons_self x _
        · by_cases hxt : x = t
          · subst hxt
            exact List.mem_cons_self x _
          · refine List.mem_cons_of_mem t ((mem_dedupGo rest (t :: seen) x).mpr ⟨h3, ?_⟩)
            intro hs
            rcases List.mem_cons.mp hs with h4 | h5
            · exact hxt h4
            · exact h2 h5

theorem dedupGo_nodup : ∀ (l seen : List J), (dedupGo seen l).Nodup
  | [], _ => List.nodup_nil
  | t :: rest, seen => by
    unfold dedupGo
    by_cases h : t ∈ seen
    · rw [if_pos h]
      exact dedupGo_nodup rest seen
    · rw [if_neg h]
      refine List.nodup_cons.mpr ⟨?_, dedupGo_nodup rest (t :: seen)⟩
      intro hmem
      exact ((mem_dedupGo rest (t :: seen) t).mp hmem).2 (List.mem_cons_self t seen)

theorem dedupSet_nodup (l : List J) : (dedupSet l).Nodup := dedupGo_nodup l []

theorem dedupSet_sublist (l : List J) : (dedupSet l).Sublist l := dedupGo_sublist l []

theorem mem_dedupSet (l : List J) (x : J) : x ∈ dedupSet l ↔ x ∈ l := by
  rw [dedupSet, mem_dedupGo l [] x]
  simp

def c5Input : J := J.obj [("attributes", J.arr []), ("tags", J.arr [J.str "x", J.str "x"])]

/-- C5 counterexample: a flat-shape input whose `tags` field already holds
the duplicate `["x", "x"]`.  The flat branch of `normalizeProductInput`
passes tags through with no de-duplication, and `formatTags`'s cleaning
keeps both copies, so the resolved tag sequence contains an exact
duplicate. -/
theorem C5_duplicate_counterexample :
    (∃ np, normalizeProductInput c5Input = .ok np ∧
      J.jget np "tags" = J.arr [J.str "x", J.str "x"]) ∧
    cleanTags [J.str "x", J.str "x"] = .ok ["x", "x"] ∧
    ¬ (["x", "x"] : List String).Nodup := by
  refine ⟨⟨_, rfl, rfl⟩, rfl, by decide⟩

/-- C5 (amended): the cleaned (resolved) tag entries are never empty or
whitespace-only, and the de-duplication that the nested-sample branch of
`normalizeProductInput` applies (`[...new Set(tags)]`, modelled by
`dedupSet`) produces a duplicate-free subsequence of the assembled tag
list that keeps exactly the first occurrence of each tag; but
de-duplication is applied before trimming and only on the nested-sample
branch, so exact duplicates survive on the flat/default shapes and
distinct raw tags may still collide after trimming. -/
theorem C5_tags_cleaned (tags : List J) (out : List String) (l : List J) :
    (cleanTags tags = .ok out → ∀ s ∈ out, s ≠ "" ∧ jsTrim s ≠ "") ∧
    ((dedupSet l).Nodup ∧ (dedupSet l).Sublist l ∧ ∀ x, x ∈ dedupSet l ↔ x ∈ l) := by
  refine ⟨fun hout => cleanTags_entries tags out hout, dedupSet_nodup l, dedupSet_sublist l,
    fun x => mem_dedupSet l x⟩

/-- Witness for `C5_tags_cleaned` at concrete tags. -/
theorem C5_tags_cleaned_witness :
    (∀ s ∈ ["a", "b"], s ≠ "" ∧ jsTrim s ≠ "") ∧
    (dedupSet [J.str "a", J.str "b", J.str "a"]).Nodup ∧
    dedupSet [J.str "a", J.str "b", J.str "a"] = [J.str "a", J.str "b"] := by
  obtain ⟨h1, h2, -, -⟩ :=
    C5_tags_cleaned [J.str " a ", J.str "b"] ["a", "b"] [J.str "a", J.str "b", J.str "a"]
  exact ⟨h1 rfl, h2, rfl⟩

/-! ### C9: media resolution -/

/-- Specification-side URL resolution (C9, amended): a URL starting with
the literal prefix `"http"` is used as-is; one starting with the media
root `"/media/"` is concatenated directly onto the base URL; any other
URL is joined onto the base URL with a single separating slash. -/
def resolveUrl (baseUrl u : String) : String :=
  if strStartsWith u "http" then u
  else if strStartsWith u "/media/" then baseUrl ++ u
  else baseUrl ++ "/" ++ u

/-- `m.media || m.image || ''` on a structured media reference (primary
field first, then the alias, then the empty string). -/
def pickUrl (a b : Option String) : String :=
  match a with
  | some x =>
    if x ≠ "" then x
    else match b with | some y => if y ≠ "" then y else "" | none => ""
  | none => match b with | some y => if y ≠ "" then y else "" | none => ""

def encodeMRef (a b : Option String) : J :=
  J.obj ((match a with | some x => [("media", J.str x)] | none => []) ++
         (match b with | some y => [("image", J.str y)] | none => []))

def encodeMediaProduct (ms : List (Option String × Option String)) : J :=
  J.obj [("media", J.arr (ms.map (fun p => encodeMRef p.1 p.2)))]

/-- The original claim's notion of "already has a URL scheme": a
non-empty alphabetic prefix followed by a colon. -/
def hasUrlScheme (s : String) : Bool :=
  decide (s.data.takeWhile Char.isAlpha ≠ []) &&
  decide ((s.data.dropWhile Char.isAlpha).head? = some ':')

/-- C9 counterexample: the reference `"httpfoo"` has no URL scheme, so
the claim's three-way branch would join it onto the base URL; the code's
check is the literal prefix `startsWith('http')`, which accepts it and
uses it as-is. -/
theorem C9_scheme_counterexample :
    buildMediaWith "http://h/media" (encodeMediaProduct [(some "httpfoo", none)])
      = .ok [⟨"IMAGE", "httpfoo"⟩] ∧
    hasUrlScheme "httpfoo" = false ∧
    ("httpfoo" : String) ≠ "http://h/media" ++ "/" ++ "httpfoo" := by
  refine ⟨rfl, by decide, by decide⟩

/-- C9 (amended): for every raw media reference, `buildMedia` takes the
primary `media` field, else the `image` alias, else `''`, and resolves it
with the three-way branch of `resolveUrl` — as-is when it starts with the
literal `"http"` (not: when it has a URL scheme), direct concatenation
after the `"/media/"` root, single-slash join otherwise — pairing every
resolved URL with the fixed `IMAGE` content type, in input order. -/
theorem C9_buildMedia (baseUrl : String) (ms : List (Option String × Option String)) :
    buildMediaWith baseUrl (encodeMediaProduct ms)
      = .ok (ms.map (fun p => ⟨"IMAGE", resolveUrl baseUrl (pickUrl p.1 p.2)⟩)) := by
  by_cases hms : ms = []
  · subst hms; rfl
  · have hmedia : J.get (encodeMediaProduct ms) "media"
        = .ok (J.arr (ms.map (fun p => encodeMRef p.1 p.2))) := rfl
    have hne : ms.map (fun p => encodeMRef p.1 p.2) ≠ [] := by
      simpa [List.map_eq_nil_iff] using hms
    have htr : J.truthy (J.arr (ms.map (fun p => encodeMRef p.1 p.2))) = true := rfl
    have hlz : jsLengthIsZero (J.arr (ms.map (fun p => encodeMRef p.1 p.2))) = false := by
      simp [jsLengthIsZero, hne]
    have hjsae : jsArrayElems (J.arr (ms.map (fun p => encodeMRef p.1 p.2)))
        = .ok (ms.map (fun p => encodeMRef p.1 p.2)) := rfl
    simp only [buildMediaWith, hmedia, bind, Except.bind, htr, hlz, hjsae]
    have hstep := mapME_map_ok (fun p : Option String × Option String => encodeMRef p.1 p.2)
      (fun m => (do
        let mm ← J.get m "media"
        let mi ← J.get m "image"
        let rawUrl := J.jsOr mm (J.jsOr mi (J.str ""))
        match rawUrl with
        | .str u =>
          let url :=
            if strStartsWith u "http" then u
            else if strStartsWith u "/media/" then baseUrl ++ u
            else baseUrl ++ "/" ++ u
          pure { mediaContentType := "IMAGE", originalSource := url }
        | _ => .error "TypeError: mediaUrl.startsWith is not a function" :
          Except String MediaItem))
      (fun p => (⟨"IMAGE", resolveUrl baseUrl (pickUrl p.1 p.2)⟩ : MediaItem)) ms ?_
    · simp only [bind, Except.bind] at hstep
      have hpu : (pure Unit.unit : Except String Unit) = Except.ok Unit.unit := rfl
      simp only [hpu, hstep]
      rfl
    · rintro ⟨a, b⟩ _
      have hg1 : J.jget (encodeMRef a b) "media"
          = (match a with | some x => J.str x | none => J.undef) := by
        cases a <;> cases b <;> rfl
      have hg2 : J.jget (encodeMRef a b) "image"
          = (match b with | some y => J.str y | none => J.undef) := by
        cases a <;> cases b <;> rfl
      have hacc : J.accessible (encodeMRef a b) = true := by
        cases a <;> cases b <;> rfl
      simp only [J.get_eq_jget hacc, bind, Except.bind, hg1, hg2]
      rcases a with _ | x
      · rcases b with _ | y
        · simp [J.jsOr, J.truthy, pickUrl, resolveUrl, pure, Except.pure]
        · by_cases hy : y = "" <;>
            simp [J.jsOr, J.truthy, pickUrl, resolveUrl, hy, pure, Except.pure]
      · rcases b with _ | y
        · by_cases hx : x = "" <;>
            simp [J.jsOr, J.truthy, pickUrl, resolveUrl, hx, pure, Except.pure]
        · by_cases hx : x = "" <;> by_cases hy : y = "" <;>
            simp [J.jsOr, J.truthy, pickUrl, resolveUrl, hx, hy, pure, Except.pure]

/-! ### C6: totality of normalization -/

theorem accessible_of_truthy {v : J} (h : J.truthy v = true) : J.accessible v = true := by
  cases v <;> first
    | rfl
    | simp [J.truthy] at h

theorem mapME_exists_ok {a b : Type} (f : a → Except String b) :
    ∀ (l : List a), (∀ x ∈ l, ∃ y, f x = .ok y) → ∃ ys, mapME f l = .ok ys
  | [], _ => ⟨[], rfl⟩
  | x :: xs, h => by
    obtain ⟨y, hy⟩ := h x (List.mem_cons_self x xs)
    obtain ⟨ys, hys⟩ := mapME_exists_ok f xs (fun z hz => h z (List.mem_cons_of_mem x hz))
    exact ⟨y :: ys, by simp [mapME, hy, hys, bind, Except.bind]⟩

/-- The `images` field of a value survives `(val.images || []).map(...)`:
either falsy (defaulted to `[]`) or an array whose elements can be read. -/
def imagesFieldOK (imgs : J) : Bool :=
  !J.truthy imgs || (match imgs with | J.arr xs => xs.all J.accessible | _ => false)

def wfNestedVal (val : J) : Bool :=
  J.accessible val && imagesFieldOK (J.jget val "images")

def wfNestedAttr (attr : J) : Bool :=
  J.accessible attr &&
    (match J.jget attr "values" with
     | J.arr vs => vs.all wfNestedVal
     | _ => false)

/-- Sufficient well-formedness for `normalizeProductInput` not to throw:
the input can be dereferenced, and in the nested-sample branch the
attribute/value/image structure, and `sample_media`, are well-nested
arrays; in the flat branch every attribute entry can be dereferenced and
carries an array `values`; the default branch needs nothing further. -/
def wfInput (input : J) : Bool :=
  J.accessible input &&
    (let sample := J.jget input "sample"
     if J.truthy sample && J.truthy (J.jget sample "sample_attributes") then
       (match J.jget sample "sample_attributes" with
        | J.arr attrs => attrs.all wfNestedAttr
        | _ => false) &&
       imagesFieldOK (J.jget sample "sample_media")
     else
       (let attrs := J.jget input "attributes"
        if J.isArray attrs then
          match attrs with
          | J.arr l => l.all (fun attr => J.accessible attr && J.isArray (J.jget attr "values"))
          | _ => false
        else true))

/-- The value object built by the nested branch for one raw value. -/
def normVal (val : J) : J :=
  J.obj [("name", J.jget val "name"), ("price", J.jget val "price"),
         ("compare_price", J.jget val "compare_price"), ("sku", J.jget val "sku"),
         ("images", J.jget val "images")]

/-- The (name, values) pair built by the nested branch for one raw
attribute (the `values` fallback `[]` is unreachable under `wfNestedAttr`). -/
def normAttrPair (attr : J) : J × List J :=
  (J.jget attr "name",
   (match J.jget attr "values" with | J.arr vs => vs | _ => []).map normVal)

theorem ok_inj {a : Type} {x y : a} (h : (Except.ok x : Except String a) = .ok y) : x = y := by
  cases h; rfl

theorem exists_ok_bind {a b : Type} {m : Except String a} {k : a → Except String b}
    (h1 : ∃ x, m = .ok x) (h2 : ∀ x, m = .ok x → ∃ y, k x = .ok y) :
    ∃ y, (m >>= k) = .ok y := by
  obtain ⟨x, hx⟩ := h1
  obtain ⟨y, hy⟩ := h2 x hx
  exact ⟨y, by simp [hx, bind, Except.bind, hy]⟩

theorem exists_ok_get {v : J} (hacc : J.accessible v = true) (k : String) :
    ∃ x, J.get v k = .ok x := ⟨J.jget v k, J.get_eq_jget hacc k⟩

/-- Totality of the flat and default branches of `normalizeProductInput`
under the flat well-formedness condition. -/
theorem normalize_else_total (input : J) (hacc : J.accessible input = true)
    (hflat : (if J.isArray (J.jget input "attributes") then
                match J.jget input "attributes" with
                | J.arr l => l.all (fun attr => J.accessible attr && J.isArray (J.jget attr "values"))
                | _ => false
              else true) = true) :
    ∃ v, (do
      let attrsF ← J.get input "attributes"
      if J.isArray attrsF then
        let attrsList ← jsArrayElems attrsF
        let newAttrs ← mapME (fun attr => do
          let nameF ← J.get attr "name"
          let valuesF ← J.get attr "values"
          let firstIsObj : Bool :=
            match valuesF with
            | .arr xs => J.typeofObject ((xs.head?).getD J.undef)
            | _ => false
          let newValues ←
            if J.isArray valuesF && firstIsObj then pure valuesF
            else do
              let vl ← jsArrayElems valuesF
              pure (J.arr (vl.map (fun val => J.obj [("name", val)])))
          pure (J.obj [("name", nameF), ("values", newValues)])) attrsList
        let mediaF ← J.get input "media"
        let tagsF ← J.get input "tags"
        pure (J.obj (setFields (spreadFields input)
          [("attributes", J.arr newAttrs),
           ("media", J.jsOr mediaF (J.arr [])),
           ("tags", J.jsOr tagsF (J.arr []))]))
      else
        let mediaF ← J.get input "media"
        let tagsF ← J.get input "tags"
        pure (J.obj (setFields (spreadFields input)
          [("attributes", J.jsOr attrsF (J.arr [])),
           ("media", J.jsOr mediaF (J.arr [])),
           ("tags", J.jsOr tagsF (J.arr []))])) : Except String J) = .ok v := by
  apply exists_ok_bind (exists_ok_get hacc "attributes")
  intro attrsF hattrsF
  have hav : attrsF = J.jget input "attributes" := by
    have := (J.get_eq_jget hacc "attributes").symm.trans hattrsF
    exact (ok_inj this).symm
  subst hav
  by_cases hisarr : J.isArray (J.jget input "attributes") = true
  · rw [if_pos hisarr]
    rw [if_pos hisarr] at hflat
    rcases hv : J.jget input "attributes" with _|_|b|q|s|xs|kv <;>
      rw [hv] at hisarr <;> simp [J.isArray] at hisarr
    -- attributes is an array xs
    rw [hv] at hflat
    apply exists_ok_bind ⟨xs, rfl⟩
    intro attrsList hAL
    have : xs = attrsList := ok_inj hAL
    subst this
    apply exists_ok_bind
    · apply mapME_exists_ok
      intro attr hattr
      have hwf := (List.all_eq_true.mp hflat) attr hattr
      rw [Bool.and_eq_true] at hwf
      obtain ⟨haccA, hvarr⟩ := hwf
      apply exists_ok_bind (exists_ok_get haccA "name")
      intro nameF _
      apply exists_ok_bind (exists_ok_get haccA "values")
      intro valuesF hvF
      have hvF2 : valuesF = J.jget attr "values" := by
        have := (J.get_eq_jget haccA "values").symm.trans hvF
        exact (ok_inj this).symm
      subst hvF2
      dsimp only
      by_cases hcond : ((J.jget attr "values").isArray &&
          (match J.jget attr "values" with
           | .arr xs2 => J.typeofObject ((xs2.head?).getD J.undef)
           | _ => false)) = true
      · rw [if_pos hcond]
        exact ⟨_, rfl⟩
      · rw [if_neg hcond]
        rcases hvv : J.jget attr "values" with _|_|b2|q2|s2|xs2|kv2 <;>
          rw [hvv] at hvarr <;> simp [J.isArray] at hvarr
        exact ⟨_, rfl⟩
    · intro newAttrs _
      apply exists_ok_bind (exists_ok_get hacc "media")
      intro mediaF _
      apply exists_ok_bind (exists_ok_get hacc "tags")
      intro tagsF _
      exact ⟨_, rfl⟩
  · rw [if_neg hisarr]
    apply exists_ok_bind (exists_ok_get hacc "media")
    intro mediaF _
    apply exists_ok_bind (exists_ok_get hacc "tags")
    intro tagsF _
    exact ⟨_, rfl⟩


theorem jget_normVal_images (val : J) :
    J.jget (normVal val) "images" = J.jget val "images" := rfl

theorem c6_tail (input : J) (hacc : J.accessible input = true)
    (hst : J.truthy (J.jget input "sample") = true)
    (k : J → J → J → J → J → J → J → J → J) :
    ∃ v, (do
      let nameF ← J.get input "name"
      let idF ← J.get input "id"
      let titleAlt ← J.get (J.jget input "sample") "title"
      let descF ← J.get input "description"
      let descAlt ← J.get (J.jget input "sample") "description"
      let stockF ← J.get input "stock"
      let isActiveF ← J.get input "is_active"
      let priceRangeF ← J.get input "price_range"
      pure (k nameF idF titleAlt descF descAlt stockF isActiveF priceRangeF)
        : Except String J) = .ok v := by
  apply exists_ok_bind (exists_ok_get hacc "name")
  intro nameF _
  apply exists_ok_bind (exists_ok_get hacc "id")
  intro idF _
  apply exists_ok_bind (exists_ok_get (accessible_of_truthy hst) "title")
  intro titleAlt _
  apply exists_ok_bind (exists_ok_get hacc "description")
  intro descF _
  apply exists_ok_bind (exists_ok_get (accessible_of_truthy hst) "description")
  intro descAlt _
  apply exists_ok_bind (exists_ok_get hacc "stock")
  intro stockF _
  apply exists_ok_bind (exists_ok_get hacc "is_active")
  intro isActiveF _
  apply exists_ok_bind (exists_ok_get hacc "price_range")
  intro priceRangeF _
  exact ⟨_, rfl⟩

theorem c6_man (input : J) (hacc : J.accessible input = true)
    (hst : J.truthy (J.jget input "sample") = true)
    (k : List J → J → J → J → J → J → J → J → J → J) :
    ∃ v, (do
      let manF ← J.get (J.jget input "sample") "manufacturer"
      let manTag ←
        if J.truthy manF then do
          let fn ← J.get manF "first_name"
          if J.truthy fn then do
            let ln ← J.get manF "last_name"
            pure [J.str (jsTrim (J.toJSString fn ++ " " ++ J.toJSString ln))]
          else pure []
        else pure []
      let nameF ← J.get input "name"
      let idF ← J.get input "id"
      let titleAlt ← J.get (J.jget input "sample") "title"
      let descF ← J.get input "description"
      let descAlt ← J.get (J.jget input "sample") "description"
      let stockF ← J.get input "stock"
      let isActiveF ← J.get input "is_active"
      let priceRangeF ← J.get input "price_range"
      pure (k manTag nameF idF titleAlt descF descAlt stockF isActiveF priceRangeF)
        : Except String J) = .ok v := by
  apply exists_ok_bind (exists_ok_get (accessible_of_truthy hst) "manufacturer")
  intro manF _
  dsimp only
  by_cases hman : J.truthy manF = true
  · rw [if_pos hman]
    apply exists_ok_bind (exists_ok_get (accessible_of_truthy hman) "first_name")
    intro fn _
    by_cases hfn : J.truthy fn = true
    · rw [if_pos hfn]
      apply exists_ok_bind (exists_ok_get (accessible_of_truthy hman) "last_name")
      intro ln _
      apply exists_ok_bind ⟨_, rfl⟩
      intro manTag _
      exact c6_tail input hacc hst (k manTag)
    · rw [if_neg hfn]
      apply exists_ok_bind ⟨_, rfl⟩
      intro manTag _
      exact c6_tail input hacc hst (k manTag)
  · rw [if_neg hman]
    apply exists_ok_bind ⟨_, rfl⟩
    intro manTag _
    exact c6_tail input hacc hst (k manTag)

/-- C6 (amended): `normalizeProductInput` is not total on all well-formed
JSON: it throws a `TypeError` when, e.g., an attribute object lacks an
array `values` field.  It does return a product object without raising on
every input satisfying `wfInput`: the input is dereferenceable and, on
the branch the dispatch selects, the attribute/value/image structure
consists of well-nested arrays (the default branch needs nothing further,
so missing fields still degrade to safe defaults there). -/
theorem C6_normalize_total (input : J) (h : wfInput input = true) :
    ∃ v, normalizeProductInput input = .ok v := by
  simp only [wfInput, Bool.and_eq_true] at h
  obtain ⟨hacc, hrest⟩ := h
  unfold normalizeProductInput
  apply exists_ok_bind (exists_ok_get hacc "sample")
  intro sampleF hsF
  have hsF2 : sampleF = J.jget input "sample" := by
    have := (J.get_eq_jget hacc "sample").symm.trans hsF
    exact (ok_inj this).symm
  subst hsF2
  dsimp only
  by_cases hst : J.truthy (J.jget input "sample") = true
  · rw [if_pos hst]
    apply exists_ok_bind (exists_ok_get (accessible_of_truthy hst) "sample_attributes")
    intro saJ0 hsaJ0
    have hsaJ0e : saJ0 = J.jget (J.jget input "sample") "sample_attributes" := by
      have := (J.get_eq_jget (accessible_of_truthy hst) "sample_attributes").symm.trans hsaJ0
      exact (ok_inj this).symm
    subst hsaJ0e
    apply exists_ok_bind ⟨_, rfl⟩
    intro nested hnested
    have hn2 : nested = J.truthy (J.jget (J.jget input "sample") "sample_attributes") :=
      (ok_inj hnested).symm
    subst hn2
    by_cases hsa : J.truthy (J.jget (J.jget input "sample") "sample_attributes") = true
    · rw [if_pos hsa]
      rw [if_pos (And.intro hst hsa)] at hrest
      rw [Bool.and_eq_true] at hrest
      obtain ⟨hmatch, hsm⟩ := hrest
      rcases hsaL : J.jget (J.jget input "sample") "sample_attributes"
        with _|_|b|q|s|saL|kv <;> (try rw [hsaL] at hmatch) <;> (try simp only at hmatch) <;>
        try exact (Bool.false_ne_true hmatch).elim
      -- sample_attributes is an array saL with every attribute well formed
      apply exists_ok_bind
        ⟨J.arr saL, by rw [J.get_eq_jget (accessible_of_truthy hst), hsaL]⟩
      intro saJ hsaJ
      have hsaJ2 : J.arr saL = saJ := by
        have h1 : J.get (J.jget input "sample") "sample_attributes" = .ok (J.arr saL) := by
          rw [J.get_eq_jget (accessible_of_truthy hst), hsaL]
        exact ok_inj (h1.symm.trans hsaJ)
      subst hsaJ2
      apply exists_ok_bind ⟨saL, rfl⟩
      intro saList hsaList
      have hsaList2 : saL = saList := ok_inj hsaList
      subst hsaList2
      -- the per-attribute construction succeeds and yields normAttrPair
      apply exists_ok_bind
        ⟨saL.map normAttrPair, mapME_ok_of_forall _ normAttrPair saL ?attrstep⟩
      case attrstep =>
        intro attr hattr
        have hwf := List.all_eq_true.mp hmatch attr hattr
        rw [wfNestedAttr, Bool.and_eq_true] at hwf
        obtain ⟨haccA, hvals⟩ := hwf
        rcases hvv : J.jget attr "values" with _|_|b2|q2|s2|vs|kv2 <;>
          (try rw [hvv] at hvals) <;> (try simp only at hvals) <;>
          try exact (Bool.false_ne_true hvals).elim
        -- values is an array vs, all well formed
        rw [show J.get attr "name" = .ok (J.jget attr "name") from
              J.get_eq_jget haccA "name",
            show J.get attr "values" = .ok (J.arr vs) from
              (J.get_eq_jget haccA "values").trans (by rw [hvv])]
        simp only [bind, Except.bind]
        have hjs : jsArrayElems (J.arr vs) = .ok vs := rfl
        rw [hjs]
        dsimp only
        have hinner := mapME_ok_of_forall
          (fun val => (do
            let vname ← J.get val "name"
            let vprice ← J.get val "price"
            let vcompare ← J.get val "compare_price"
            let vsku ← J.get val "sku"
            let vimages ← J.get val "images"
            pure (J.obj [("name", vname), ("price", vprice), ("compare_price", vcompare),
                         ("sku", vsku), ("images", vimages)]) : Except String J))
          normVal vs ?valstep
        case valstep =>
          intro val hval
          have hwv := List.all_eq_true.mp hvals val hval
          rw [wfNestedVal, Bool.and_eq_true] at hwv
          obtain ⟨haccV, -⟩ := hwv
          simp [J.get_eq_jget haccV, bind, Except.bind, pure, Except.pure, normVal]
        simp only [bind, Except.bind] at hinner
        rw [hinner]
        dsimp only
        simp only [pure, Except.pure, normAttrPair, hvv]
      intro attrPairs hAP
      have hAP2 : saL.map normAttrPair = attrPairs :=
        ok_inj ((mapME_ok_of_forall _ normAttrPair saL (by
          intro attr hattr
          have hwf := List.all_eq_true.mp hmatch attr hattr
          rw [wfNestedAttr, Bool.and_eq_true] at hwf
          obtain ⟨haccA, hvals⟩ := hwf
          rcases hvv : J.jget attr "values" with _|_|b2|q2|s2|vs|kv2 <;>
            (try rw [hvv] at hvals) <;> (try simp only at hvals) <;>
            try exact (Bool.false_ne_true hvals).elim
          rw [show J.get attr "name" = .ok (J.jget attr "name") from
                J.get_eq_jget haccA "name",
              show J.get attr "values" = .ok (J.arr vs) from
                (J.get_eq_jget haccA "values").trans (by rw [hvv])]
          simp only [bind, Except.bind]
          have hjs : jsArrayElems (J.arr vs) = .ok vs := rfl
          rw [hjs]
          dsimp only
          have hinner := mapME_ok_of_forall
            (fun val => (do
              let vname ← J.get val "name"
              let vprice ← J.get val "price"
              let vcompare ← J.get val "compare_price"
              let vsku ← J.get val "sku"
              let vimages ← J.get val "images"
              pure (J.obj [("name", vname), ("price", vprice), ("compare_price", vcompare),
                           ("sku", vsku), ("images", vimages)]) : Except String J))
            normVal vs (by
              intro val hval
              have hwv := List.all_eq_true.mp hvals val hval
              rw [wfNestedVal, Bool.and_eq_true] at hwv
              obtain ⟨haccV, -⟩ := hwv
              simp [J.get_eq_jget haccV, bind, Except.bind, pure, Except.pure, normVal])
          simp only [bind, Except.bind] at hinner
          rw [hinner]
          dsimp only
          simp only [pure, Except.pure, normAttrPair, hvv])).symm.trans hAP)
      subst hAP2
      -- sample_media
      apply exists_ok_bind (exists_ok_get (accessible_of_truthy hst) "sample_media")
      intro smJ hsmJ
      have hsmJ2 : smJ = J.jget (J.jget input "sample") "sample_media" := by
        have := (J.get_eq_jget (accessible_of_truthy hst) "sample_media").symm.trans hsmJ
        exact (ok_inj this).symm
      subst hsmJ2
      apply exists_ok_bind
      · by_cases hsmt : J.truthy (J.jget (J.jget input "sample") "sample_media") = true
        · rw [imagesFieldOK.eq_def, hsmt] at hsm
          simp only [Bool.not_true, Bool.false_or] at hsm
          rcases hsmv : J.jget (J.jget input "sample") "sample_media"
            with _|_|b3|q3|s3|ms|kv3 <;> (try rw [hsmv] at hsm) <;> (try simp only at hsm) <;>
            try exact (Bool.false_ne_true hsm).elim
          exact ⟨ms, rfl⟩
        · refine ⟨[], ?_⟩
          have hor : J.jsOr (J.jget (J.jget input "sample") "sample_media") (J.arr [])
              = J.arr [] := by
            simp [J.jsOr, hsmt]
          rw [hor]
          rfl
      · intro smList hsmList
        apply exists_ok_bind
        · apply mapME_exists_ok
          intro m hm
          -- every sample_media element is accessible
          have haccM : J.accessible m = true := by
            by_cases hsmt : J.truthy (J.jget (J.jget input "sample") "sample_media") = true
            · rw [imagesFieldOK.eq_def, hsmt] at hsm
              simp only [Bool.not_true, Bool.false_or] at hsm
              rcases hsmv : J.jget (J.jget input "sample") "sample_media"
                with _|_|b3|q3|s3|ms|kv3 <;> (try rw [hsmv] at hsm) <;> (try simp only at hsm) <;>
                try exact (Bool.false_ne_true hsm).elim
              rw [hsmv] at hsmList
              have hms : smList = ms := by
                have h1 : jsArrayElems (J.jsOr (J.arr ms) (J.arr [])) = .ok ms := rfl
                exact (ok_inj (h1.symm.trans hsmList)).symm
              subst hms
              exact List.all_eq_true.mp hsm m hm
            · have hor : J.jsOr (J.jget (J.jget input "sample") "sample_media") (J.arr [])
                  = J.arr [] := by
                simp [J.jsOr, hsmt]
              rw [hor] at hsmList
              have hms : smList = [] := (ok_inj hsmList).symm
              subst hms
              cases hm
          apply exists_ok_bind (exists_ok_get haccM "media")
          intro mm _
          apply exists_ok_bind (exists_ok_get haccM "is_featured")
          intro mf _
          exact ⟨_, rfl⟩
        · intro topMedia _
          apply exists_ok_bind
          · apply mapME_exists_ok
            intro val' hval'
            -- val' is normVal of a well-formed raw value
            rw [List.mem_flatten] at hval'
            obtain ⟨vlist, hvlist, hval'2⟩ := hval'
            rw [List.map_map, List.mem_map] at hvlist
            obtain ⟨attr, hattr, hattrEq⟩ := hvlist
            have hwf := List.all_eq_true.mp hmatch attr hattr
            rw [wfNestedAttr, Bool.and_eq_true] at hwf
            obtain ⟨haccA, hvals⟩ := hwf
            rcases hvv : J.jget attr "values" with _|_|b2|q2|s2|vs|kv2 <;>
              (try rw [hvv] at hvals) <;> (try simp only at hvals) <;>
              try exact (Bool.false_ne_true hvals).elim
            have hvlist2 : vlist = vs.map normVal := by
              rw [← hattrEq]
              simp [Function.comp_def, normAttrPair, hvv]
            subst hvlist2
            rw [List.mem_map] at hval'2
            obtain ⟨val, hvalmem, hvalEq⟩ := hval'2
            have hwv := List.all_eq_true.mp hvals val hvalmem
            rw [wfNestedVal, Bool.and_eq_true] at hwv
            obtain ⟨haccV, himg⟩ := hwv
            subst hvalEq
            rw [jget_normVal_images]
            by_cases himt : J.truthy (J.jget val "images") = true
            · rw [imagesFieldOK.eq_def, himt] at himg
              simp only [Bool.not_true, Bool.false_or] at himg
              rcases himv : J.jget val "images" with _|_|b4|q4|s4|imgs|kv4 <;>
                (try rw [himv] at himg) <;> (try simp only at himg) <;>
                try exact (Bool.false_ne_true himg).elim
              apply exists_ok_bind ⟨imgs, rfl⟩
              intro imgsL himgsL
              have himgs2 : imgs = imgsL := ok_inj himgsL
              subst himgs2
              apply mapME_exists_ok
              intro img himgmem
              have haccI := List.all_eq_true.mp himg img himgmem
              apply exists_ok_bind (exists_ok_get haccI "image")
              intro iF _
              exact ⟨_, rfl⟩
            · have hor : J.jsOr (J.jget val "images") (J.arr []) = J.arr [] := by
                simp [J.jsOr, himt]
              apply exists_ok_bind ⟨[], by rw [hor]; rfl⟩
              intro imgsL himgsL
              rw [hor] at himgsL
              have himgs2 : ([] : List J) = imgsL := ok_inj himgsL
              subst himgs2
              exact ⟨[], rfl⟩
          · intro valImagesNested _
            dsimp only
            apply exists_ok_bind (exists_ok_get hacc "tags")
            intro tagsF _
            apply exists_ok_bind (exists_ok_get hacc "store")
            intro storeF _
            by_cases hsto : J.truthy storeF = true
            · rw [if_pos hsto]
              apply exists_ok_bind (exists_ok_get (accessible_of_truthy hsto) "name")
              intro sn _
              apply exists_ok_bind ⟨_, rfl⟩
              intro storeTag _
              exact c6_man input hacc hst _
            · rw [if_neg hsto]
              apply exists_ok_bind ⟨_, rfl⟩
              intro storeTag _
              exact c6_man input hacc hst _
    · rw [if_neg hsa]
      rw [if_neg (by exact fun hc => hsa hc.2)] at hrest
      exact normalize_else_total input hacc hrest
  · rw [if_neg hst]
    apply exists_ok_bind ⟨false, rfl⟩
    intro nested hnested
    have hnf : false = nested := ok_inj hnested
    subst hnf
    rw [if_neg (by simp)]
    rw [if_neg (by exact fun hc => hst hc.1)] at hrest
    exact normalize_else_total input hacc hrest

/-- C6 counterexample: the spec's own example of tolerated input — an
attribute object lacking a `values` array — makes `normalizeProductInput`
throw a `TypeError` (the source's `attr.values.map(...)` on line 33 of the
flat branch dereferences `undefined`), so the function is not total on
well-formed JSON. -/
theorem C6_missing_values_counterexample :
    normalizeProductInput (J.obj [("attributes", J.arr [J.obj [("name", J.str "X")]])])
      = .error "TypeError: cannot read properties of undefined (reading map)" := rfl

theorem C6_normalize_total_witness :
    wfInput (J.obj [("sample",
        J.obj [("sample_attributes", J.arr [J.obj [("name", J.str "Color"),
          ("values", J.arr [J.obj [("name", J.str "Red")]])]])])]) = true ∧
    ∃ v, normalizeProductInput (J.obj [("sample",
        J.obj [("sample_attributes", J.arr [J.obj [("name", J.str "Color"),
          ("values", J.arr [J.obj [("name", J.str "Red")]])]])])]) = .ok v :=
  ⟨by decide, C6_normalize_total _ (by decide)⟩

/-! ### Handler fixtures -/

/-- A created-product value carrying an id. -/
def gidProd : J := J.obj [("id", J.str "gid://shopify/Product/1")]

/-- A flat product input with no media. -/
def pFlatEx : J :=
  J.obj [("title", J.str "T"), ("attributes", J.arr []), ("price", J.str "5")]

/-- A flat product input with one media entry. -/
def pMediaEx : J :=
  J.obj [("title", J.str "T"), ("attributes", J.arr []), ("price", J.str "5"),
         ("media", J.arr [J.obj [("media", J.str "/media/a.jpg")]])]

/-- A successful `productCreate` response body with no `userErrors`,
returning `pv` as the created product. -/
def okCreateBody (pv : J) : J :=
  J.obj [("data", J.obj [("productCreate",
    J.obj [("product", pv), ("userErrors", J.arr [])])])]

/-- The handler's media-attach result for one scripted transport outcome
(lines 355-372): on a resolved response, `response.data.data.productCreateMedia`;
any rejection or read failure is swallowed by the inner `try/catch`, leaving
the initial `null`. -/
def attachResult : UpResp → J
  | .ok mb =>
    match (do
      let d ← J.get mb "data"
      J.get d "productCreateMedia" : Except String J) with
    | .ok v => v
    | .error _ => J.null
  | _ => J.null

/-- The normalized form of `pMediaEx`. -/
def npM : J :=
  match normalizeProductInput pMediaEx with
  | .ok v => v
  | .error _ => J.undef

/-- The `productCreate` mutation text the handler sends for `pMediaEx`. -/
def mutM : String :=
  match (do
    let np ← normalizeProductInput pMediaEx
    let ov ← buildOptionsAndVariants np
    let tagsPart ← formatTags (J.jget np "tags")
    pure (createMutation np ov.options ov.variants tagsPart) : Except String String) with
  | .ok s => s
  | .error _ => ""

/-- The resolved media list for `pMediaEx`. -/
def mediaM : List MediaItem :=
  match buildMedia npM with
  | .ok ms => ms
  | .error _ => []

/-- Master run: on `pMediaEx` with a successful, `userErrors`-free create
response returning `pv`, the handler returns 200 and attaches media iff
`pv` is truthy with a truthy `id`; the attach outcome is `attachResult` of
the second scripted response and never escalates. -/
theorem createRoute_media_run (tokens : String → Option String) (shop pv : J)
    (rest : List UpResp) :
    createRoute tokens (UpResp.ok (okCreateBody pv) :: rest) shop pMediaEx
      = if J.truthy pv && J.truthy (J.jget pv "id") then
          (⟨200, successBody npM pv
              (attachResult (rest.head?.getD (UpResp.netErr "socket hang up")))⟩,
           [⟨adminApiUrl (J.toJSString shop), mutM, tokens (J.toJSString shop)⟩,
            ⟨adminApiUrl (J.toJSString shop), mediaCreateMutation (J.jget pv "id") mediaM,
             tokens (J.toJSString shop)⟩])
        else
          (⟨200, successBody npM pv J.null⟩,
           [⟨adminApiUrl (J.toJSString shop), mutM, tokens (J.toJSString shop)⟩]) := rfl

/-- C7 counterexample: with an empty token store (no credential on file
for any shop) the create handler still sends the upstream `productCreate`
request — with `headers['X-Shopify-Access-Token']` absent — and returns
the upstream-driven 200, not a 401: the cited route performs no
access-token check at all. -/
theorem C7_no_credential_counterexample :
    (createRoute (fun _ => none) [UpResp.ok (okCreateBody gidProd)]
        (J.str "shop.myshopify.com") pFlatEx).1.status = 200 ∧
    ((createRoute (fun _ => none) [UpResp.ok (okCreateBody gidProd)]
        (J.str "shop.myshopify.com") pFlatEx).2.map Req.token) = [none] :=
  ⟨rfl, rfl⟩

/-- C7 (amended): the create handler never consults the token store: for
every request whose shop has no credential on file, its response and its
upstream-request log are identical to a run against an empty token store
(the request is still sent, with no access token attached); no
authentication error is reported and no upstream call is suppressed. -/
theorem C7_token_store_unused (tokens : String → Option String)
    (responses : List UpResp) (shop product : J)
    (h : tokens (J.toJSString shop) = none) :
    createRoute tokens responses shop product
      = createRoute (fun _ => none) responses shop product := by
  unfold createRoute
  rw [h]

theorem C7_token_store_unused_witness :
    ((fun _ : String => (none : Option String)) (J.toJSString (J.str "s")) = none) ∧
    createRoute (fun _ => none) [] (J.str "s") J.undef
      = createRoute (fun _ => none) [] (J.str "s") J.undef :=
  ⟨rfl, C7_token_store_unused (fun _ => none) [] (J.str "s") J.undef rfl⟩

/-- C8 counterexample: when the media-attach call fails after a successful
create, the HTTP response is byte-for-byte the response of a run in which
no attach was ever attempted (same product, no media): the `media` field is
`null` in both, so it does not indicate the attach failure. -/
theorem C8_attach_indistinguishable :
    (createRoute (fun _ => none)
        [UpResp.ok (okCreateBody gidProd), UpResp.netErr "socket hang up"]
        (J.str "shop.myshopify.com") pMediaEx).1
      = (createRoute (fun _ => none) [UpResp.ok (okCreateBody gidProd)]
          (J.str "shop.myshopify.com") pFlatEx).1 := rfl

/-- C8 (amended): a media-attach failure after a successful create is
isolated and does not escalate: for every transport outcome of the attach
call whose attach result is swallowed (`attachResult e = null` — a thrown
error, a rejected request, or a response without `productCreateMedia`),
the handler still returns the 200 success shape, with the `media` field
merely `null` — indistinguishable from a run that never attempted the
attach — rather than an indication of the failure. -/
theorem C8_attach_failure_isolated (tokens : String → Option String) (shop : J)
    (e : UpResp) (he : attachResult e = J.null) :
    createRoute tokens [UpResp.ok (okCreateBody gidProd), e] shop pMediaEx
      = (⟨200, successBody npM gidProd J.null⟩,
         [⟨adminApiUrl (J.toJSString shop), mutM, tokens (J.toJSString shop)⟩,
          ⟨adminApiUrl (J.toJSString shop), mediaCreateMutation (J.jget gidProd "id") mediaM,
           tokens (J.toJSString shop)⟩]) := by
  rw [createRoute_media_run, if_pos (by decide)]
  rw [show ([e].head?.getD (UpResp.netErr "socket hang up")) = e from rfl, he]

theorem C8_attach_failure_isolated_witness :
    attachResult (UpResp.netErr "boom") = J.null ∧
    createRoute (fun _ => none) [UpResp.ok (okCreateBody gidProd), UpResp.netErr "boom"]
        (J.str "s") pMediaEx
      = (⟨200, successBody npM gidProd J.null⟩,
         [⟨adminApiUrl (J.toJSString (J.str "s")), mutM, (fun _ => none) (J.toJSString (J.str "s"))⟩,
          ⟨adminApiUrl (J.toJSString (J.str "s")),
           mediaCreateMutation (J.jget gidProd "id") mediaM,
           (fun _ => none) (J.toJSString (J.str "s"))⟩]) :=
  ⟨rfl, C8_attach_failure_isolated (fun _ => none) (J.str "s") (UpResp.netErr "boom") rfl⟩

/-- C10: when the create response has no `userErrors` but the returned
product value is falsy or lacks a truthy `id`, the media-attach request is
not sent even though the resolved media list is non-empty: the handler
makes exactly one upstream call and returns the 200 success shape with the
`media` field `null`. -/
theorem C10_missing_product_id_skips_attach (tokens : String → Option String)
    (shop pv : J) (rest : List UpResp)
    (h : (J.truthy pv && J.truthy (J.jget pv "id")) = false) :
    createRoute tokens (UpResp.ok (okCreateBody pv) :: rest) shop pMediaEx
      = (⟨200, successBody npM pv J.null⟩,
         [⟨adminApiUrl (J.toJSString shop), mutM, tokens (J.toJSString shop)⟩]) := by
  rw [createRoute_media_run, if_neg (by simp [h])]

theorem C10_missing_product_id_skips_attach_witness :
    ((J.truthy J.undef && J.truthy (J.jget J.undef "id")) = false) ∧
    createRoute (fun _ => none) [UpResp.ok (okCreateBody J.undef)] (J.str "s") pMediaEx
      = (⟨200, successBody npM J.undef J.null⟩,
         [⟨adminApiUrl (J.toJSString (J.str "s")), mutM,
           (fun _ => none) (J.toJSString (J.str "s"))⟩]) :=
  ⟨rfl, C10_missing_product_id_skips_attach (fun _ => none) (J.str "s") J.undef [] rfl⟩
